import Mathlib

/-!
# MiSub node groups: the request handler of `/api/node-groups`

A shallow embedding of `functions/routes/node-groups-routes.js`
(`generateId`, `handleNodeGroupsRequest`) and the properties of the stored
group collection that follow from it.

Conventions of the embedding.

* Values that arrive from outside (the parsed request body) are JavaScript
  values as `JSON.parse` produces them: `JsVal`.
* The stored collection is a list of `Group` records, the shape of the object
  literals the handler itself writes (source lines 80-87 and 99-107); this
  type is closed under every write of the handler, starting from an absent key.
* JavaScript exceptions inside the `try` block (a `TypeError` for a call of a
  non-function or a property read on `null`, a rejected `request.json()`) are
  `none` results of the primitive that throws; the `catch` block turns them
  into the status 500 response.
* JavaScript strings are Lean strings; `trim` strips the ECMAScript white space and
  line terminator code points, and timestamps are compared as text.
* The storage key is a value that reads and writes without failure, the boundary the
  spec fixes for the storage adapter; `Outcome.written` records the argument of
  `storageAdapter.put`, so that "no write" and "store unchanged" are both expressible.
* The clock and the random source are inputs of the handler (`Env`).
* The text of the `message` field of a response is not part of the model.
-/

namespace MiSub

/-! ## JavaScript values and the built-ins the handler uses -/

/-- JavaScript values reachable from `JSON.parse`, plus `undefined` for an absent
property. Numbers are rationals: every finite double is one, and the handler only tests
numbers for truthiness and strict equality. An object is the list of its own properties. -/
inductive JsVal where
  | undefined : JsVal
  | null : JsVal
  | bool (b : Bool) : JsVal
  | num (q : ℚ) : JsVal
  | str (s : String) : JsVal
  | arr (xs : List JsVal) : JsVal
  | obj (kv : List (String × JsVal)) : JsVal

namespace JsVal

/-- ECMAScript `ToBoolean`: `undefined`, `null`, `false`, `0` and `""` are falsy,
everything else (every array and object included) is truthy. -/
def truthy : JsVal → Bool
  | undefined => false
  | null => false
  | bool b => b
  | num q => decide (q ≠ 0)
  | str s => decide (s ≠ "")
  | arr _ => true
  | obj _ => true

/-- Own property lookup in the property list of an object. -/
def lookup (k : String) : List (String × JsVal) → JsVal
  | [] => undefined
  | (k', v) :: rest => if k' = k then v else lookup k rest

/-- Test whether a property read on `v` throws a `TypeError`: only on `undefined` and
`null`. -/
def isNullish : JsVal → Bool
  | undefined => true
  | null => true
  | _ => false

/-- Property read `v.k` on a value that is not nullish, for the keys the handler reads
(`name`, `nodeIds`, `id`, `description`, `enabled`): the own property of an object, and
`undefined` on a primitive or an array, whose prototypes define none of these keys. -/
def getProp (v : JsVal) (k : String) : JsVal :=
  match v with
  | obj kv => lookup k kv
  | _ => undefined

/-- Test `Array.isArray(v)`. -/
def isArray : JsVal → Bool
  | arr _ => true
  | _ => false

/-- Elements of an array value (no elements for any other value). -/
def elements : JsVal → List JsVal
  | arr xs => xs
  | _ => []

end JsVal

/-- ECMAScript `WhiteSpace` and `LineTerminator` code points, the characters that
`String.prototype.trim` strips. -/
def isJsWhiteSpace (c : Char) : Bool :=
  let n := c.toNat
  n == 0x0009 || n == 0x000A || n == 0x000B || n == 0x000C || n == 0x000D ||
  n == 0x0020 || n == 0x00A0 || n == 0x1680 || (0x2000 ≤ n && n ≤ 0x200A) ||
  n == 0x2028 || n == 0x2029 || n == 0x202F || n == 0x205F || n == 0x3000 ||
  n == 0xFEFF

/-- Trimming of a character list: white space removed from both ends. -/
def trimChars (cs : List Char) : List Char :=
  ((cs.dropWhile isJsWhiteSpace).reverse.dropWhile isJsWhiteSpace).reverse

/-- Built-in `String.prototype.trim`. -/
def jsTrim (s : String) : String := String.mk (trimChars s.data)

/-- Method call `v.trim()` on a value that is neither `undefined` nor `null`: the trimmed
string when `v` is a string; for any other JSON value `v.trim` is not a function and the
call throws a `TypeError` (`none`). -/
def callTrim : JsVal → Option String
  | JsVal.str s => some (jsTrim s)
  | _ => none

/-- Strict equality `a === v` of a string `a` with a JavaScript value. -/
def strictEqStr (a : String) : JsVal → Bool
  | JsVal.str s => decide (a = s)
  | _ => false

/-! ## Data model -/

/-- One stored group record: the fields of the object literal at source lines 99-107. -/
structure Group where
  id : String
  name : String
  description : String
  nodeIds : List JsVal
  enabled : Bool
  createdAt : String
  updatedAt : String

/-- Content of the storage key `KV_KEY_NODE_GROUPS`: absent, or a stored collection. -/
abbrev Store := Option (List Group)

/-- Modelled from the spec: `storageAdapter.get(KV_KEY_NODE_GROUPS) || []` with the
storage adapter of `storage-adapter.js`, which the spec fixes only at its boundary
(`get(key) -> value | absent`); an absent key reads as the empty collection. -/
def readGroups (store : Store) : List Group := store.getD []

/-- An HTTP request as the handler sees it: `request.method`, the result of
`request.json()` (`none` when the promise rejects because the body is not JSON), and
`url.searchParams.get('id')` (`none` when the parameter is missing). -/
structure Request where
  method : String
  json : Option JsVal
  idParam : Option String

/-- Ambient inputs of one call: `new Date().toISOString()` at source line 57,
`Date.now()` inside `generateId`, and the nine-character cut of the random number,
`Math.random().toString(36).substr(2, 9)`. -/
structure Env where
  nowIso : String
  dateNow : Int
  randomSuffix : String

/-- The JSON response: HTTP status, the `success` flag and the `data` field when present. -/
structure Response where
  status : Nat
  success : Bool
  data : Option (List Group)

/-- Result of handling one request: the response, and the collection handed to
`storageAdapter.put` when the handler writes (`none`: no write). -/
structure Outcome where
  response : Response
  written : Option (List Group)

/-- Modelled from the spec: `createJsonResponse(body, status)` of `modules/utils.js`;
the status is 200 when the second argument is omitted (`none`), spec section 6. -/
def createJsonResponse (success : Bool) (data : Option (List Group))
    (status : Option Nat) : Response :=
  { status := status.getD 200, success := success, data := data }

/-- Modelled from the spec: the effect of `storageAdapter.put(KV_KEY_NODE_GROUPS, groups)`
on the key, for a `put` that completes (the spec's boundary is `put(key, value) -> ok/fail`;
a failing backend is outside the model): the stored value is replaced as a whole. -/
def applyWrite (store : Store) (out : Outcome) : Store :=
  match out.written with
  | some groups => some groups
  | none => store

/-! ## The source functions -/

/-- Source `generateId`: the text `group-<Date.now()>-<random suffix>`. -/
def generateId (env : Env) : String :=
  "group-" ++ toString env.dateNow ++ "-" ++ env.randomSuffix

/-- Response of the `catch` block: status 500, nothing written. -/
def internalError : Outcome :=
  { response := createJsonResponse false none (some 500), written := none }

/-- A handled failure: `success: false` with the given status, nothing written. -/
def failure (status : Nat) : Outcome :=
  { response := createJsonResponse false none (some status), written := none }

/-- A handled success after `storageAdapter.put`: status 200, `success: true`, the
written collection as `data`. -/
def writeAndReturn (groups : List Group) : Outcome :=
  { response := createJsonResponse true (some groups) none, written := some groups }

/-- Expression `body.description?.trim() || ''` of source lines 83 and 102: the empty
string for `undefined` and `null`, the trimmed text for a string (the empty string when
that is empty), and a `TypeError` (`none`) for any other value. -/
def descriptionOf : JsVal → Option String
  | JsVal.undefined => some ""
  | JsVal.null => some ""
  | v => (callTrim v).map (fun t => if t ≠ "" then t else "")

/-- Expression `body.enabled !== false`. -/
def enabledOf : JsVal → Bool
  | JsVal.bool false => false
  | _ => true

/-- Callback of `groups.findIndex(g => g.id === v)`, as an index or `none` for `-1`. -/
def findIndex (groups : List Group) (v : JsVal) : Option Nat :=
  groups.findIdx? (fun g => strictEqStr g.id v)

/-- Duplicate test of the update branch (source lines 70-72):
`groups.some((g, i) => i !== index && g.name.trim() === name.trim())`. -/
def duplicateNameExcept (groups : List Group) (index : Nat) (trimmed : String) : Bool :=
  groups.enum.any (fun p => p.1 != index && jsTrim p.2.name == trimmed)

/-- Duplicate test of the create branch (source line 91):
`groups.some(g => g.name.trim() === name.trim())`. -/
def duplicateName (groups : List Group) (trimmed : String) : Bool :=
  groups.any (fun g => jsTrim g.name == trimmed)

/-- Object literal of the update branch (source lines 80-87): the old record spread,
then `name`, `description`, `nodeIds`, `enabled` and `updatedAt` overwritten. -/
def updatedGroup (old : Group) (trimmed desc : String) (nodeIds : List JsVal)
    (enabled : Bool) (now : String) : Group :=
  { old with
    name := trimmed
    description := desc
    nodeIds := nodeIds
    enabled := enabled
    updatedAt := now }

/-- Object literal of the create branch (source lines 99-107), with `id` the value of
`generateId()`; both timestamps are `now`. -/
def createdGroup (id trimmed desc : String) (nodeIds : List JsVal) (enabled : Bool)
    (now : String) : Group :=
  { id := id
    name := trimmed
    description := desc
    nodeIds := nodeIds
    enabled := enabled
    createdAt := now
    updatedAt := now }

/-- Source lines 57-117: the write of a validated `POST`, with `trimmed` the value of
`body.name.trim()` and `nodeIds` the elements of the array `body.nodeIds`. A truthy
`body.id` selects the update branch, anything else the create branch. The index that
`findIndex` returns is a position of the collection, so the assignment `groups[index] = ...`
replaces the record at that position; `groups.push` appends at the end. -/
def upsert (env : Env) (groups : List Group) (body : JsVal) (trimmed : String)
    (nodeIds : List JsVal) : Outcome :=
  let now := env.nowIso
  if (body.getProp "id").truthy then
    match findIndex groups (body.getProp "id") with
    | none => failure 404
    | some index =>
      if duplicateNameExcept groups index trimmed then failure 400
      else
        match descriptionOf (body.getProp "description") with
        | none => internalError
        | some desc =>
          writeAndReturn (groups.modify (fun old => updatedGroup old trimmed desc nodeIds
            (enabledOf (body.getProp "enabled")) now) index)
  else
    if duplicateName groups trimmed then failure 400
    else
      match descriptionOf (body.getProp "description") with
      | none => internalError
      | some desc =>
        writeAndReturn (groups ++ [createdGroup (generateId env) trimmed desc nodeIds
          (enabledOf (body.getProp "enabled")) now])

/-- The `POST` branch of `handleNodeGroupsRequest` (source lines 38-118) after
`request.json()` has resolved to `body` and the collection has been read: the two
required-field checks of lines 43-55, then the write. The read `body.name` throws on a
nullish body; `!body.name.trim()` holds exactly when the trimmed text is empty. -/
def handlePost (env : Env) (groups : List Group) (body : JsVal) : Outcome :=
  if body.isNullish then internalError
  else
    let name := body.getProp "name"
    if !name.truthy then failure 400
    else
      match callTrim name with
      | none => internalError
      | some trimmed =>
        if trimmed = "" then failure 400
        else
          let nodeIds := body.getProp "nodeIds"
          if !nodeIds.truthy || !nodeIds.isArray || nodeIds.elements.length == 0 then
            failure 400
          else upsert env groups body trimmed nodeIds.elements

/-- The `DELETE` branch of `handleNodeGroupsRequest` (source lines 121-150); the
collection is read only after the `id` parameter has been checked. -/
def handleDelete (groups : List Group) (idParam : Option String) : Outcome :=
  match idParam with
  | none => failure 400
  | some groupId =>
    if groupId = "" then failure 400
    else
      match findIndex groups (JsVal.str groupId) with
      | none => failure 404
      | some index => writeAndReturn (groups.eraseIdx index)

/-- Source `handleNodeGroupsRequest`: dispatch on the method; the `try`/`catch` turns
every exception into the status 500 response. -/
def handleNodeGroupsRequest (request : Request) (env : Env) (store : Store) : Outcome :=
  if request.method = "GET" then
    { response := createJsonResponse true (some (readGroups store)) none, written := none }
  else if request.method = "POST" then
    match request.json with
    | none => internalError
    | some body => handlePost env (readGroups store) body
  else if request.method = "DELETE" then
    handleDelete (readGroups store) request.idParam
  else
    failure 405

/-- The store after one request has been handled. -/
def step (store : Store) (call : Request × Env) : Store :=
  applyWrite store (handleNodeGroupsRequest call.1 call.2 store)

/-- The store after a sequence of requests, handled one after the other. -/
def run (store : Store) (calls : List (Request × Env)) : Store :=
  calls.foldl step store

/-! ## The client store `useNodeGroupStore` (`src/stores/nodeGroups.js`) -/

/-- State of the client store: the refs `items` and `isLoading`. -/
structure NodeGroupStore where
  items : List Group
  isLoading : Bool

/-- The `Error` a remote operation throws: `fetch` itself rejected, the response was not
HTTP-ok (`HTTP error! status: ...`), or `result.success` was false. -/
inductive StoreError where
  | fetchRejected : StoreError
  | httpError (status : Nat) : StoreError
  | notSuccessful : StoreError

/-- Property `response.ok` of the Fetch API: the status is in the range 200-299. -/
def responseOk (response : Response) : Bool :=
  decide (200 ≤ response.status ∧ response.status ≤ 299)

/-- Source `setItems`: `items.value = newItems || []`. -/
def setItems (st : NodeGroupStore) (newItems : Option (List Group)) : NodeGroupStore :=
  { st with items := newItems.getD [] }

/-- Source `remove`: `findIndex` by strict equality of the id, then `splice(index, 1)`. -/
def remove (st : NodeGroupStore) (id : JsVal) : NodeGroupStore :=
  match findIndex st.items id with
  | some index => { st with items := st.items.eraseIdx index }
  | none => st

/-- Source `fetchGroups`, with `reply` what `fetch('/api/node-groups')` resolves to: a
response of the handler, or `none` when the promise rejects. The result is the state
after the call and the error the call throws, if any; `finally` resets `isLoading`. -/
def fetchGroups (st : NodeGroupStore) (reply : Option Response) :
    NodeGroupStore × Option StoreError :=
  let loading := { st with isLoading := true }
  match reply with
  | none => ({ loading with isLoading := false }, some StoreError.fetchRejected)
  | some response =>
    if !responseOk response then
      ({ loading with isLoading := false }, some (StoreError.httpError response.status))
    else if response.success then
      ({ setItems loading response.data with isLoading := false }, none)
    else ({ loading with isLoading := false }, some StoreError.notSuccessful)

/-- Source `saveGroup`, with `reply` what the `POST` resolves to. -/
def saveGroup (st : NodeGroupStore) (reply : Option Response) :
    NodeGroupStore × Option StoreError :=
  match reply with
  | none => (st, some StoreError.fetchRejected)
  | some response =>
    if !responseOk response then (st, some (StoreError.httpError response.status))
    else if response.success then (setItems st response.data, none)
    else (st, some StoreError.notSuccessful)

/-- Source `deleteGroup`, with `reply` what the `DELETE` resolves to. -/
def deleteGroup (st : NodeGroupStore) (reply : Option Response) :
    NodeGroupStore × Option StoreError :=
  match reply with
  | none => (st, some StoreError.fetchRejected)
  | some response =>
    if !responseOk response then (st, some (StoreError.httpError response.status))
    else if response.success then (setItems st response.data, none)
    else (st, some StoreError.notSuccessful)

/-! ## Invariants of the collection -/

/-- Invariant I1: all ids of the collection are distinct. -/
def UniqueIds (groups : List Group) : Prop := (groups.map (fun g => g.id)).Nodup

/-- Invariant I2: all names of the collection, compared trimmed, are distinct. -/
def UniqueNames (groups : List Group) : Prop := (groups.map (fun g => jsTrim g.name)).Nodup

/-- Invariant I3: every record has a non-empty `nodeIds` sequence. -/
def NonEmptyMembership (groups : List Group) : Prop := ∀ g ∈ groups, g.nodeIds ≠ []

/-- Invariant I4: `updatedAt >= createdAt` for every record, timestamps compared as text. -/
def TimestampsOrdered (groups : List Group) : Prop := ∀ g ∈ groups, g.createdAt ≤ g.updatedAt

/-- Every stored name is non-empty and equal to its own trim. -/
def NamesNormalised (groups : List Group) : Prop :=
  ∀ g ∈ groups, g.name ≠ "" ∧ jsTrim g.name = g.name

/-- A request that takes the create branch when it reaches the write: a `POST` whose
body carries no truthy `id`. Only such a request calls `generateId`. -/
def isCreation (request : Request) : Bool :=
  request.method == "POST" &&
    match request.json with
    | some body => !(body.getProp "id").truthy
    | none => false

/-- A sequence of requests in which every creation draws a fresh id: at each creation the
value `generateId` returns equals no id stored at that moment. -/
def FreshIds : Store → List (Request × Env) → Prop
  | _, [] => True
  | store, call :: rest =>
    (isCreation call.1 = true →
      generateId call.2 ∉ (readGroups store).map (fun g => g.id)) ∧
    FreshIds (step store call) rest

/-! ## Sample data -/

/-- A body `{name, nodeIds}` as a client posts it to create a group. -/
def createBody (name : String) : JsVal :=
  JsVal.obj [("name", JsVal.str name), ("nodeIds", JsVal.arr [JsVal.str "n1", JsVal.str "n2"])]

/-- A sample clock and random source. -/
def env0 : Env :=
  { nowIso := "2024-05-01T10:00:00.000Z", dateNow := 1714557600000, randomSuffix := "k3j9x0a2b" }

/-- A `POST` request with the given JSON body. -/
def postRequest (body : JsVal) : Request :=
  { method := "POST", json := some body, idParam := none }

/-- A `DELETE` request with the given `id` query parameter. -/
def deleteRequest (id : String) : Request :=
  { method := "DELETE", json := none, idParam := some id }

/-- A body whose `name` is a number and whose `nodeIds` is the empty array. -/
def numericNameBody : JsVal :=
  JsVal.obj [("name", JsVal.num 5), ("nodeIds", JsVal.arr [])]

/-- A body whose `name` is white space only. -/
def blankNameBody : JsVal :=
  JsVal.obj [("name", JsVal.str " \t "), ("nodeIds", JsVal.arr [JsVal.str "n1"])]

/-- A creation body whose `description` is a number. -/
def numericDescriptionBody : JsVal :=
  JsVal.obj [("name", JsVal.str "EU"), ("nodeIds", JsVal.arr [JsVal.str "n1", JsVal.str "n2"]),
    ("description", JsVal.num 5)]

/-- A second reading of the clock and of the random source. -/
def env1 : Env :=
  { nowIso := "2024-05-01T10:00:07.250Z", dateNow := 1714557607250, randomSuffix := "q8w1e5r7t" }

/-- The store after the sample creation: one group `EU`. -/
def storeEU : Store := step none (postRequest (createBody "EU"), env0)

/-- An update body for the group of `storeEU`: a new name, one node, disabled, and a
`createdAt` of the client's own. -/
def updateBody : JsVal :=
  JsVal.obj [("id", JsVal.str "group-1714557600000-k3j9x0a2b"), ("name", JsVal.str "EU-West"),
    ("nodeIds", JsVal.arr [JsVal.str "n1"]), ("enabled", JsVal.bool false),
    ("createdAt", JsVal.str "1999-12-31T23:59:59.000Z")]

/-- The record of `storeEU`. -/
def groupEU : Group :=
  createdGroup "group-1714557600000-k3j9x0a2b" "EU" "" [JsVal.str "n1", JsVal.str "n2"] true
    "2024-05-01T10:00:00.000Z"

/-- The record of `storeEU` after `updateBody` has been applied at the clock of `env1`. -/
def groupEUWest : Group :=
  { id := "group-1714557600000-k3j9x0a2b"
    name := "EU-West"
    description := ""
    nodeIds := [JsVal.str "n1"]
    enabled := false
    createdAt := "2024-05-01T10:00:00.000Z"
    updatedAt := "2024-05-01T10:00:07.250Z" }

/-- An update body that keeps the current name of the group of `storeEU`. -/
def renameToSelfBody : JsVal :=
  JsVal.obj [("id", JsVal.str "group-1714557600000-k3j9x0a2b"), ("name", JsVal.str " EU "),
    ("nodeIds", JsVal.arr [JsVal.str "n3"])]

/-- An update body whose id names no stored record. -/
def unknownIdBody : JsVal :=
  JsVal.obj [("id", JsVal.str "group-0-missing"), ("name", JsVal.str "Asia"),
    ("nodeIds", JsVal.arr [JsVal.str "n1"])]

/-- Two creations with distinct names at the same reading of the clock and of the random
source, so that `generateId` returns the same text twice. -/
def collidingCalls : List (Request × Env) :=
  [(postRequest (createBody "EU"), env0), (postRequest (createBody "Asia"), env0)]

/-- A create, an update of the created group and a further create, with distinct
readings of the clock and of the random source. -/
def sampleCalls : List (Request × Env) :=
  [(postRequest (createBody "EU"), env0), (postRequest updateBody, env1),
    (postRequest (createBody "Asia"), env1)]

/-- A `GET` request. -/
def getRequest : Request :=
  { method := "GET", json := none, idParam := none }

/-- The store after the group `EU` has been created at the later clock reading `env1`. -/
def storeLate : Store := step none (postRequest (createBody "EU"), env1)

/-- An update body for the group of `storeLate`. -/
def updateLateBody : JsVal :=
  JsVal.obj [("id", JsVal.str "group-1714557607250-q8w1e5r7t"), ("name", JsVal.str "EU-West"),
    ("nodeIds", JsVal.arr [JsVal.str "n1"])]

/-- The record of `storeLate`. -/
def groupLate : Group :=
  createdGroup "group-1714557607250-q8w1e5r7t" "EU" "" [JsVal.str "n1", JsVal.str "n2"] true
    "2024-05-01T10:00:07.250Z"

/-- The record of `storeLate` after `updateLateBody` has been applied by a request whose
clock reads the earlier time of `env0`. -/
def groupLateUpdated : Group :=
  { id := "group-1714557607250-q8w1e5r7t"
    name := "EU-West"
    description := ""
    nodeIds := [JsVal.str "n1"]
    enabled := true
    createdAt := "2024-05-01T10:00:07.250Z"
    updatedAt := "2024-05-01T10:00:00.000Z" }

/-- The store that holds the disabled group `EU-West`. -/
def storeDisabled : Store := some [groupEUWest]

/-- An update body for the group of `storeDisabled` that omits `enabled`. -/
def omitEnabledBody : JsVal :=
  JsVal.obj [("id", JsVal.str "group-1714557600000-k3j9x0a2b"), ("name", JsVal.str " EU-West "),
    ("nodeIds", JsVal.arr [JsVal.str "n1"])]

/-- A client store that holds a stale copy of the collection: the group `EU-West`. -/
def staleClient : NodeGroupStore :=
  { items := [groupEUWest], isLoading := false }

/-- The store after `collidingCalls`: two records that share one id. -/
def collidedStore : Store := run none collidingCalls

/-- The second record of `collidedStore`: the group `Asia`, with the id of the group `EU`. -/
def groupAsiaCollided : Group :=
  createdGroup "group-1714557600000-k3j9x0a2b" "Asia" "" [JsVal.str "n1", JsVal.str "n2"] true
    "2024-05-01T10:00:00.000Z"

/-- An update body for the group of `storeEU` that keeps its name and carries a number as
`description`. -/
def keepNameNumericDescriptionBody : JsVal :=
  JsVal.obj [("id", JsVal.str "group-1714557600000-k3j9x0a2b"), ("name", JsVal.str "EU"),
    ("nodeIds", JsVal.arr [JsVal.str "n1"]), ("description", JsVal.num 5)]

/-! ## Built-ins: trimming -/

theorem dropWhile_trimChars (cs : List Char) :
    (trimChars cs).dropWhile isJsWhiteSpace = trimChars cs := by
  have hpre : trimChars cs <+: cs.dropWhile isJsWhiteSpace :=
    List.rdropWhile_prefix isJsWhiteSpace _
  obtain ⟨rest, hrest⟩ := hpre
  have hhead : (cs.dropWhile isJsWhiteSpace).dropWhile isJsWhiteSpace
      = cs.dropWhile isJsWhiteSpace := List.dropWhile_idempotent isJsWhiteSpace cs
  cases hr : trimChars cs with
  | nil => rfl
  | cons c tl =>
    rw [hr] at hrest
    rw [← hrest] at hhead
    simp only [List.cons_append, List.dropWhile_cons] at hhead ⊢
    split at hhead
    · have hlen := congrArg List.length hhead
      have hle := (List.dropWhile_sublist isJsWhiteSpace (l := tl ++ rest)).length_le
      simp only [List.length_cons] at hlen
      omega
    · simp [*]

theorem trimChars_idem (cs : List Char) : trimChars (trimChars cs) = trimChars cs := by
  unfold trimChars
  rw [show ((List.dropWhile isJsWhiteSpace cs).reverse.dropWhile isJsWhiteSpace).reverse
      = trimChars cs from rfl, dropWhile_trimChars]
  exact List.rdropWhile_idempotent isJsWhiteSpace _

/-- Trimming twice is trimming once. -/
theorem jsTrim_idem (s : String) : jsTrim (jsTrim s) = jsTrim s := by
  simp [jsTrim, trimChars_idem]

theorem jsTrim_empty : jsTrim "" = "" := by decide

/-! ## Distinctness, position by position -/

theorem nodup_map_iff_getElem? {α β : Type} (f : α → β) (l : List α) :
    (l.map f).Nodup ↔
      ∀ (i j : Nat) (a b : α), i ≠ j → l[i]? = some a → l[j]? = some b → f a ≠ f b := by
  rw [List.nodup_iff_getElem?_ne_getElem?]
  constructor
  · intro h i j a b hij ha hb hfab
    have hi : i < l.length := (List.getElem?_eq_some_iff.mp ha).1
    have hj : j < l.length := (List.getElem?_eq_some_iff.mp hb).1
    have hmi : (l.map f)[i]? = some (f a) := by simp [ha]
    have hmj : (l.map f)[j]? = some (f b) := by simp [hb]
    rcases Nat.lt_or_gt_of_ne hij with hlt | hgt
    · refine h i j hlt (by simpa using hj) ?_
      rw [hmi, hmj, hfab]
    · refine h j i hgt (by simpa using hi) ?_
      rw [hmi, hmj, hfab]
  · intro h i j hij hj
    have hj2 : j < l.length := by simpa using hj
    have hi2 : i < l.length := Nat.lt_trans hij hj2
    simp only [List.getElem?_map, List.getElem?_eq_getElem hi2, List.getElem?_eq_getElem hj2,
      Option.map_some', ne_eq, Option.some.injEq]
    exact h i j l[i] l[j] (Nat.ne_of_lt hij) (List.getElem?_eq_getElem hi2)
      (List.getElem?_eq_getElem hj2)

/-! ## The callbacks over the collection -/

theorem findIndex_eq_some_iff {groups : List Group} {v : JsVal} {i : Nat} :
    findIndex groups v = some i ↔
      ∃ g, groups[i]? = some g ∧ strictEqStr g.id v = true ∧
        ∀ j g', j < i → groups[j]? = some g' → strictEqStr g'.id v = false := by
  unfold findIndex
  rw [List.findIdx?_eq_some_iff_getElem]
  constructor
  · rintro ⟨h, hp, hlt⟩
    refine ⟨groups[i], List.getElem?_eq_getElem h, hp, ?_⟩
    intro j g' hj hg'
    have hjl : j < groups.length := Nat.lt_trans hj h
    rw [List.getElem?_eq_getElem hjl] at hg'
    cases hg'
    simpa using hlt j hj
  · rintro ⟨g, hg, hp, hlt⟩
    obtain ⟨h, rfl⟩ := List.getElem?_eq_some_iff.mp hg
    refine ⟨h, hp, ?_⟩
    intro j hj
    have hjl : j < groups.length := Nat.lt_trans hj h
    simpa using hlt j groups[j] hj (List.getElem?_eq_getElem hjl)

theorem findIndex_eq_none_iff {groups : List Group} {v : JsVal} :
    findIndex groups v = none ↔ ∀ g ∈ groups, strictEqStr g.id v = false := by
  unfold findIndex
  simp

theorem strictEqStr_eq_true_iff {a : String} {v : JsVal} :
    strictEqStr a v = true ↔ v = JsVal.str a := by
  cases v <;> simp [strictEqStr, eq_comm]

theorem duplicateName_eq_true_iff {groups : List Group} {t : String} :
    duplicateName groups t = true ↔ ∃ g ∈ groups, jsTrim g.name = t := by
  simp [duplicateName]

theorem duplicateNameExcept_eq_true_iff {groups : List Group} {i : Nat} {t : String} :
    duplicateNameExcept groups i t = true ↔
      ∃ j g, j ≠ i ∧ groups[j]? = some g ∧ jsTrim g.name = t := by
  unfold duplicateNameExcept
  simp only [List.any_eq_true, Bool.and_eq_true, bne_iff_ne, ne_eq, beq_iff_eq, Prod.exists,
    List.mk_mem_enum_iff_getElem?]
  constructor
  · rintro ⟨j, g, hg, hne, hn⟩
    exact ⟨j, g, hne, hg, hn⟩
  · rintro ⟨j, g, hne, hg, hn⟩
    exact ⟨j, g, hg, hne, hn⟩

/-! ## Shape of the outcomes -/

theorem getProp_of_isNullish {body : JsVal} (h : body.isNullish = true) (k : String) :
    body.getProp k = JsVal.undefined := by
  cases body <;> simp_all [JsVal.isNullish, JsVal.getProp]

theorem isNullish_of_getProp_str {body : JsVal} {k s : String}
    (h : body.getProp k = JsVal.str s) : body.isNullish = false := by
  cases body <;> simp_all [JsVal.isNullish, JsVal.getProp]

/-- A validated body reaches the write: a string name that is not blank and a non-empty
array of node ids. -/
theorem handlePost_of_valid (env : Env) (groups : List Group) {body : JsVal} {s : String}
    {n : JsVal} {ns : List JsVal} (hname : body.getProp "name" = JsVal.str s)
    (ht : jsTrim s ≠ "") (hnodes : body.getProp "nodeIds" = JsVal.arr (n :: ns)) :
    handlePost env groups body = upsert env groups body (jsTrim s) (n :: ns) := by
  have hs : s ≠ "" := by
    rintro rfl
    exact ht jsTrim_empty
  simp [handlePost, isNullish_of_getProp_str hname, hname, hnodes, JsVal.truthy, callTrim, hs,
    ht, JsVal.isArray, JsVal.elements]

/-- A successful `POST` has passed both required-field checks. -/
theorem handlePost_success_inv {env : Env} {groups : List Group} {body : JsVal}
    (h : (handlePost env groups body).response.success = true ∨
      (handlePost env groups body).written.isSome = true) :
    ∃ s n ns, body.getProp "name" = JsVal.str s ∧ jsTrim s ≠ "" ∧
      body.getProp "nodeIds" = JsVal.arr (n :: ns) := by
  unfold handlePost at h
  by_cases hnull : body.isNullish = true
  · simp [hnull, internalError, createJsonResponse] at h
  · simp only [hnull, Bool.false_eq_true, if_false] at h
    cases hname : body.getProp "name" with
    | str s =>
      refine ⟨s, ?_⟩
      simp only [hname, callTrim] at h
      by_cases hs : (JsVal.str s).truthy = true
      · by_cases ht : jsTrim s = ""
        · simp [hs, ht, failure, createJsonResponse] at h
        · simp only [hs, ht, Bool.not_true, Bool.false_eq_true, if_false] at h
          cases hnodes : body.getProp "nodeIds" with
          | arr xs =>
            cases xs with
            | nil =>
              simp [hnodes, JsVal.truthy, JsVal.isArray, JsVal.elements, failure,
                createJsonResponse] at h
            | cons n ns => exact ⟨n, ns, rfl, ht, rfl⟩
          | _ =>
            simp [hnodes, JsVal.truthy, JsVal.isArray, JsVal.elements, failure,
              createJsonResponse] at h
      · simp [hs, failure, createJsonResponse] at h
    | _ =>
      simp only [hname, callTrim] at h
      split at h <;> simp [failure, internalError, createJsonResponse] at h

/-- The create branch, evaluated. -/
theorem upsert_create_eq (env : Env) (groups : List Group) {body : JsVal} (t : String)
    (nodeIds : List JsVal) {desc : String} (hid : (body.getProp "id").truthy = false)
    (hdup : duplicateName groups t = false)
    (hdesc : descriptionOf (body.getProp "description") = some desc) :
    upsert env groups body t nodeIds =
      writeAndReturn (groups ++ [createdGroup (generateId env) t desc nodeIds
        (enabledOf (body.getProp "enabled")) env.nowIso]) := by
  simp [upsert, hid, hdup, hdesc]

/-- The update branch, evaluated. -/
theorem upsert_update_eq (env : Env) (groups : List Group) {body : JsVal} (t : String)
    (nodeIds : List JsVal) {desc : String} {i : Nat}
    (hid : (body.getProp "id").truthy = true)
    (hidx : findIndex groups (body.getProp "id") = some i)
    (hdup : duplicateNameExcept groups i t = false)
    (hdesc : descriptionOf (body.getProp "description") = some desc) :
    upsert env groups body t nodeIds =
      writeAndReturn (groups.modify (fun old => updatedGroup old t desc nodeIds
        (enabledOf (body.getProp "enabled")) env.nowIso) i) := by
  simp [upsert, hid, hidx, hdup, hdesc]

/-- A successful write is one of the two branches, with a description that evaluates. -/
theorem upsert_success_inv {env : Env} {groups : List Group} {body : JsVal} {t : String}
    {nodeIds : List JsVal}
    (h : (upsert env groups body t nodeIds).response.success = true ∨
      (upsert env groups body t nodeIds).written.isSome = true) :
    ∃ desc, descriptionOf (body.getProp "description") = some desc ∧
      (((body.getProp "id").truthy = false ∧ duplicateName groups t = false) ∨
       ((body.getProp "id").truthy = true ∧
          ∃ i, findIndex groups (body.getProp "id") = some i ∧
            duplicateNameExcept groups i t = false)) := by
  unfold upsert at h
  by_cases hid : (body.getProp "id").truthy = true
  · simp only [hid, if_true] at h
    cases hidx : findIndex groups (body.getProp "id") with
    | none => simp [hidx, failure, createJsonResponse] at h
    | some i =>
      simp only [hidx] at h
      by_cases hdup : duplicateNameExcept groups i t = true
      · simp [hdup, failure, createJsonResponse] at h
      · cases hdesc : descriptionOf (body.getProp "description") with
        | none => simp [hdup, hdesc, internalError, createJsonResponse] at h
        | some desc =>
          exact ⟨desc, rfl, Or.inr ⟨hid, i, rfl, by simpa using hdup⟩⟩
  · simp only [hid, Bool.false_eq_true, if_false] at h
    by_cases hdup : duplicateName groups t = true
    · simp [hdup, failure, createJsonResponse] at h
    · cases hdesc : descriptionOf (body.getProp "description") with
      | none => simp [hdup, hdesc, internalError, createJsonResponse] at h
      | some desc =>
        exact ⟨desc, rfl, Or.inl ⟨by simpa using hid, by simpa using hdup⟩⟩

theorem step_eq_of_written_none (store : Store) (request : Request) (env : Env)
    (h : (handleNodeGroupsRequest request env store).written = none) :
    step store (request, env) = store := by
  simp [step, applyWrite, h]

theorem handle_post_eq {request : Request} (env : Env) (store : Store) {body : JsVal}
    (hmethod : request.method = "POST") (hjson : request.json = some body) :
    handleNodeGroupsRequest request env store = handlePost env (readGroups store) body := by
  have hne : ¬ ("POST" = "GET") := by decide
  simp [handleNodeGroupsRequest, hmethod, hjson, hne]

theorem handle_delete_eq {request : Request} (env : Env) (store : Store)
    (hmethod : request.method = "DELETE") :
    handleNodeGroupsRequest request env store
      = handleDelete (readGroups store) request.idParam := by
  have hne : ¬ ("DELETE" = "GET") := by decide
  have hne2 : ¬ ("DELETE" = "POST") := by decide
  simp [handleNodeGroupsRequest, hmethod, hne, hne2]

theorem callTrim_cases (v : JsVal) : (∃ s, v = JsVal.str s) ∨ callTrim v = none := by
  cases v <;> simp [callTrim]

theorem descriptionOf_str (d : String) : descriptionOf (JsVal.str d) = some (jsTrim d) := by
  simp only [descriptionOf, callTrim, Option.map_some', Option.some.injEq]
  split
  · rfl
  · rename_i h
    exact (not_not.mp h).symm

/-! ## Required fields -/

/-- C3, counterexample: with `name: 5` and `nodeIds: []` the body has an empty `nodeIds`
array, yet `body.name.trim` is not a function, the call throws, and the answer is
status 500 instead of 400. -/
theorem required_fields_status_counterexample :
    numericNameBody.getProp "nodeIds" = JsVal.arr [] ∧
    (handleNodeGroupsRequest (postRequest numericNameBody) env0 none).response.status = 500 ∧
    (handleNodeGroupsRequest (postRequest numericNameBody) env0 none).response.status ≠ 400 :=
  ⟨rfl, by decide, by decide⟩

/-- C3, amended: for every stored collection and every `POST` body whose `name` is absent,
empty (or otherwise falsy) or a white-space-only string, or whose `nodeIds` is absent, not
an array or an empty array, the handler answers `success: false` and performs no write, so
the store is unchanged, whether or not the body carries an id; the status is 400 whenever
the body is not `null` and its `name` is absent, falsy or a string, and it is 500 whenever
the body is `null` or its `name` is a truthy value that is not a string (the read of
`body.name`, respectively the call `body.name.trim()`, throws and the `catch` block
answers). -/
theorem required_fields_rejected (request : Request) (env : Env) (store : Store)
    (body : JsVal) (hmethod : request.method = "POST") (hjson : request.json = some body)
    (hbad : (body.getProp "name").truthy = false ∨
      (∃ s, body.getProp "name" = JsVal.str s ∧ jsTrim s = "") ∨
      body.getProp "nodeIds" = JsVal.undefined ∨
      (body.getProp "nodeIds").isArray = false ∨
      body.getProp "nodeIds" = JsVal.arr []) :
    (handleNodeGroupsRequest request env store).response.success = false ∧
    (handleNodeGroupsRequest request env store).written = none ∧
    step store (request, env) = store ∧
    (body.isNullish = false →
      ((body.getProp "name").truthy = false ∨ ∃ s, body.getProp "name" = JsVal.str s) →
      (handleNodeGroupsRequest request env store).response.status = 400) ∧
    ((body.isNullish = true ∨
        ((body.getProp "name").truthy = true ∧ ∀ s, body.getProp "name" ≠ JsVal.str s)) →
      (handleNodeGroupsRequest request env store).response.status = 500) := by
  have hcases : handleNodeGroupsRequest request env store = failure 400 ∨
      (handleNodeGroupsRequest request env store = internalError ∧
        (body.isNullish = true ∨
          ((body.getProp "name").truthy = true ∧ ∀ s, body.getProp "name" ≠ JsVal.str s))) := by
    rw [handle_post_eq env store hmethod hjson]
    by_cases hnull : body.isNullish = true
    · exact Or.inr ⟨by simp [handlePost, hnull], Or.inl hnull⟩
    · by_cases htruthy : (body.getProp "name").truthy = true
      · rcases callTrim_cases (body.getProp "name") with ⟨s, hname⟩ | hcall
        · left
          by_cases ht : jsTrim s = ""
          · simp [handlePost, hnull, htruthy, hname, callTrim, ht]
          · have hcheck : (!(body.getProp "nodeIds").truthy ||
                !(body.getProp "nodeIds").isArray ||
                (body.getProp "nodeIds").elements.length == 0) = true := by
              rcases hbad with h | ⟨s2, hs2, hst⟩ | h | h | h
              · rw [htruthy] at h
                cases h
              · rw [hname] at hs2
                injection hs2 with hs2
                rw [hs2] at ht
                exact absurd hst ht
              · simp [h, JsVal.truthy]
              · simp [h]
              · simp [h, JsVal.elements]
            have hs : (JsVal.str s).truthy = true := by rw [← hname]; exact htruthy
            simp only [handlePost, hnull, hname, hs, callTrim, ht, Bool.false_eq_true, if_false,
              Bool.not_true]
            rw [if_pos hcheck]
        · refine Or.inr ⟨by simp [handlePost, hnull, htruthy, hcall], Or.inr ⟨htruthy, ?_⟩⟩
          intro s hs
          rw [hs] at hcall
          cases hcall
      · exact Or.inl (by simp [handlePost, hnull, htruthy])
  refine ⟨?_, ?_, ?_, ?_, ?_⟩
  · rcases hcases with h | ⟨h, -⟩ <;> rw [h] <;> rfl
  · rcases hcases with h | ⟨h, -⟩ <;> rw [h] <;> rfl
  · apply step_eq_of_written_none
    rcases hcases with h | ⟨h, -⟩ <;> rw [h] <;> rfl
  · intro hbody hname
    rcases hcases with h | ⟨-, hn | ⟨htruthy, hnot⟩⟩
    · rw [h]; rfl
    · rw [hbody] at hn
      cases hn
    · rcases hname with hf | ⟨s, hs⟩
      · rw [htruthy] at hf
        cases hf
      · exact absurd hs (hnot s)
  · intro hthrow
    rcases hcases with h | ⟨h, -⟩
    · exfalso
      rw [handle_post_eq env store hmethod hjson] at h
      rcases hthrow with hnull | ⟨htruthy, hnot⟩
      · simp [handlePost, hnull, internalError, failure, createJsonResponse] at h
      · have hnull : body.isNullish = false := by
          cases hb : body.isNullish with
          | false => rfl
          | true =>
            rw [getProp_of_isNullish hb "name"] at htruthy
            cases htruthy
        have hcall : callTrim (body.getProp "name") = none := by
          rcases callTrim_cases (body.getProp "name") with ⟨s, hs⟩ | hc
          · exact absurd hs (hnot s)
          · exact hc
        simp [handlePost, hnull, htruthy, hcall, internalError, failure,
          createJsonResponse] at h
    · rw [h]; rfl

theorem required_fields_rejected_witness :
    ((handleNodeGroupsRequest (postRequest blankNameBody) env0 none).response.success = false ∧
      (handleNodeGroupsRequest (postRequest blankNameBody) env0 none).written = none ∧
      step none (postRequest blankNameBody, env0) = none ∧
      (handleNodeGroupsRequest (postRequest blankNameBody) env0 none).response.status = 400) ∧
    ((handleNodeGroupsRequest (postRequest numericNameBody) env0 storeEU).response.success
        = false ∧
      (handleNodeGroupsRequest (postRequest numericNameBody) env0 storeEU).written = none ∧
      step storeEU (postRequest numericNameBody, env0) = storeEU ∧
      (handleNodeGroupsRequest (postRequest numericNameBody) env0 storeEU).response.status
        = 500) :=
  have hblank := required_fields_rejected (postRequest blankNameBody) env0 none blankNameBody
    rfl rfl (Or.inr (Or.inl ⟨" \t ", rfl, by decide⟩))
  have hnumeric := required_fields_rejected (postRequest numericNameBody) env0 storeEU
    numericNameBody rfl rfl (Or.inr (Or.inr (Or.inr (Or.inr rfl))))
  ⟨⟨hblank.1, hblank.2.1, hblank.2.2.1, hblank.2.2.2.1 rfl (Or.inr ⟨" \t ", rfl⟩)⟩,
    ⟨hnumeric.1, hnumeric.2.1, hnumeric.2.2.1,
      hnumeric.2.2.2.2 (Or.inr ⟨by decide, fun s hs => by cases hs⟩)⟩⟩

/-! ## Creation -/

/-- C4, counterexample: a body without id, with the name `EU`, two node ids and
`description: 5`, posted to the empty store. Every condition of the claim holds, yet
`body.description?.trim()` throws (a number has no `trim`), the answer is status 500 and
nothing is written. -/
theorem create_numeric_description_counterexample :
    numericDescriptionBody.getProp "id" = JsVal.undefined ∧
    numericDescriptionBody.getProp "name" = JsVal.str "EU" ∧
    jsTrim "EU" ≠ "" ∧
    readGroups none = [] ∧
    numericDescriptionBody.getProp "nodeIds" = JsVal.arr [JsVal.str "n1", JsVal.str "n2"] ∧
    (handleNodeGroupsRequest (postRequest numericDescriptionBody) env0 none).response.status
      = 500 ∧
    (handleNodeGroupsRequest (postRequest numericDescriptionBody) env0 none).written = none :=
  ⟨rfl, rfl, by decide, rfl, rfl, by decide, rfl⟩

/-- C4, amended: for every stored collection `G` and every `POST` body with no id (absent or
falsy), a name that is non-empty after trimming and equal (trimmed) to no trimmed name in
`G`, a non-empty `nodeIds` array, and a description that is absent, `null` or a string, the
request succeeds with status 200, and both the written collection and the returned data are
`G` with exactly one record appended at the end. The appended record has the generated id,
the trimmed name, the trimmed description (empty when absent), the input node ids, and
`createdAt = updatedAt = now`. -/
theorem create_postcondition (request : Request) (env : Env) (store : Store) (body : JsVal)
    (s : String) (n : JsVal) (ns : List JsVal)
    (hmethod : request.method = "POST") (hjson : request.json = some body)
    (hid : (body.getProp "id").truthy = false)
    (hname : body.getProp "name" = JsVal.str s) (ht : jsTrim s ≠ "")
    (hfresh : ∀ g ∈ readGroups store, jsTrim g.name ≠ jsTrim s)
    (hnodes : body.getProp "nodeIds" = JsVal.arr (n :: ns))
    (hdesc : body.getProp "description" = JsVal.undefined ∨
      body.getProp "description" = JsVal.null ∨ ∃ d, body.getProp "description" = JsVal.str d) :
    ∃ record : Group,
      (handleNodeGroupsRequest request env store).response.status = 200 ∧
      (handleNodeGroupsRequest request env store).response.success = true ∧
      (handleNodeGroupsRequest request env store).written = some (readGroups store ++ [record]) ∧
      (handleNodeGroupsRequest request env store).response.data
        = some (readGroups store ++ [record]) ∧
      record.id = generateId env ∧
      record.name = jsTrim s ∧
      (record.description = match body.getProp "description" with
        | JsVal.str d => jsTrim d
        | _ => "") ∧
      record.nodeIds = n :: ns ∧
      record.enabled = enabledOf (body.getProp "enabled") ∧
      record.createdAt = env.nowIso ∧
      record.updatedAt = env.nowIso := by
  have hdup : duplicateName (readGroups store) (jsTrim s) = false := by
    rw [Bool.eq_false_iff]
    intro hd
    obtain ⟨g, hg, hgn⟩ := duplicateName_eq_true_iff.mp hd
    exact hfresh g hg hgn
  have hdesc2 : ∃ desc, descriptionOf (body.getProp "description") = some desc ∧
      desc = (match body.getProp "description" with
        | JsVal.str d => jsTrim d
        | _ => "") := by
    rcases hdesc with h | h | ⟨d, h⟩
    · exact ⟨"", by simp [h, descriptionOf], by simp [h]⟩
    · exact ⟨"", by simp [h, descriptionOf], by simp [h]⟩
    · exact ⟨jsTrim d, by simp [h, descriptionOf_str], by simp [h]⟩
  obtain ⟨desc, hdescEq, hdescVal⟩ := hdesc2
  have hout := handle_post_eq env store hmethod hjson
  rw [handlePost_of_valid env (readGroups store) hname ht hnodes,
    upsert_create_eq env (readGroups store) (jsTrim s) (n :: ns) hid hdup hdescEq] at hout
  refine ⟨createdGroup (generateId env) (jsTrim s) desc (n :: ns)
    (enabledOf (body.getProp "enabled")) env.nowIso, ?_⟩
  rw [hout]
  exact ⟨rfl, rfl, rfl, rfl, rfl, rfl, hdescVal, rfl, rfl, rfl, rfl⟩

theorem create_postcondition_witness :
    ∃ record : Group,
      (handleNodeGroupsRequest (postRequest (createBody " EU ")) env0 none).response.status
        = 200 ∧
      (handleNodeGroupsRequest (postRequest (createBody " EU ")) env0 none).response.success
        = true ∧
      (handleNodeGroupsRequest (postRequest (createBody " EU ")) env0 none).written
        = some (readGroups none ++ [record]) ∧
      (handleNodeGroupsRequest (postRequest (createBody " EU ")) env0 none).response.data
        = some (readGroups none ++ [record]) ∧
      record.id = generateId env0 ∧
      record.name = jsTrim " EU " ∧
      (record.description = match (createBody " EU ").getProp "description" with
        | JsVal.str d => jsTrim d
        | _ => "") ∧
      record.nodeIds = [JsVal.str "n1", JsVal.str "n2"] ∧
      record.enabled = enabledOf ((createBody " EU ").getProp "enabled") ∧
      record.createdAt = env0.nowIso ∧
      record.updatedAt = env0.nowIso :=
  create_postcondition (postRequest (createBody " EU ")) env0 none (createBody " EU ") " EU "
    (JsVal.str "n1") [JsVal.str "n2"] rfl rfl rfl rfl (by decide)
    (by intro g hg; cases hg) rfl (Or.inl rfl)

/-- The create branch with a duplicate name, evaluated. -/
theorem upsert_create_duplicate (env : Env) (groups : List Group) {body : JsVal} (t : String)
    (nodeIds : List JsVal) (hid : (body.getProp "id").truthy = false)
    (hdup : duplicateName groups t = true) :
    upsert env groups body t nodeIds = failure 400 := by
  simp [upsert, hid, hdup]

/-- C5: for every stored collection and every `POST` body without id whose name is a string
that is not blank and whose `nodeIds` is a non-empty array, the request is rejected with
status 400 without a write if and only if some stored record has a trimmed name equal to
the trimmed input name (exact comparison of the trimmed texts); and when such a request
succeeds, posting the same body again, at any later clock and random reading, yields
status 400 and leaves exactly the collection written by the first call. -/
theorem create_duplicate_name (request : Request) (env : Env) (store : Store) (body : JsVal)
    (s : String) (n : JsVal) (ns : List JsVal)
    (hmethod : request.method = "POST") (hjson : request.json = some body)
    (hid : (body.getProp "id").truthy = false)
    (hname : body.getProp "name" = JsVal.str s) (ht : jsTrim s ≠ "")
    (hnodes : body.getProp "nodeIds" = JsVal.arr (n :: ns)) :
    (((handleNodeGroupsRequest request env store).response.status = 400 ∧
        (handleNodeGroupsRequest request env store).written = none) ↔
      ∃ g ∈ readGroups store, jsTrim g.name = jsTrim s) ∧
    ((handleNodeGroupsRequest request env store).response.success = true →
      ∀ later : Env,
        (handleNodeGroupsRequest request later (step store (request, env))).response.status
          = 400 ∧
        (handleNodeGroupsRequest request later (step store (request, env))).written = none ∧
        step (step store (request, env)) (request, later) = step store (request, env)) := by
  have hout : ∀ (e : Env) (st : Store), handleNodeGroupsRequest request e st
      = upsert e (readGroups st) body (jsTrim s) (n :: ns) := by
    intro e st
    rw [handle_post_eq e st hmethod hjson, handlePost_of_valid e (readGroups st) hname ht hnodes]
  constructor
  · constructor
    · rintro ⟨hstatus, -⟩
      by_contra hno
      have hdup : duplicateName (readGroups store) (jsTrim s) = false := by
        rw [Bool.eq_false_iff]
        intro hd
        exact hno (duplicateName_eq_true_iff.mp hd)
      rw [hout] at hstatus
      cases hdesc : descriptionOf (body.getProp "description") with
      | none => simp [upsert, hid, hdup, hdesc, internalError, createJsonResponse] at hstatus
      | some desc =>
        simp [upsert, hid, hdup, hdesc, writeAndReturn, createJsonResponse] at hstatus
    · intro hex
      rw [hout, upsert_create_duplicate env (readGroups store) (jsTrim s) (n :: ns) hid
        (duplicateName_eq_true_iff.mpr hex)]
      exact ⟨rfl, rfl⟩
  · intro hsucc later
    rw [hout] at hsucc
    obtain ⟨desc, hdesc, hcase⟩ := upsert_success_inv (Or.inl hsucc)
    rcases hcase with ⟨-, hdup⟩ | ⟨hid2, -⟩
    · have hstep : step store (request, env)
          = some (readGroups store ++ [createdGroup (generateId env) (jsTrim s) desc (n :: ns)
              (enabledOf (body.getProp "enabled")) env.nowIso]) := by
        simp [step, applyWrite, hout,
          upsert_create_eq env (readGroups store) (jsTrim s) (n :: ns) hid hdup hdesc,
          writeAndReturn]
      have hdup2 : duplicateName (readGroups (step store (request, env))) (jsTrim s) = true := by
        rw [duplicateName_eq_true_iff, hstep]
        refine ⟨createdGroup (generateId env) (jsTrim s) desc (n :: ns)
          (enabledOf (body.getProp "enabled")) env.nowIso, ?_, ?_⟩
        · simp [readGroups]
        · simp [createdGroup, jsTrim_idem]
      have hsecond : handleNodeGroupsRequest request later (step store (request, env))
          = failure 400 := by
        rw [hout, upsert_create_duplicate later _ (jsTrim s) (n :: ns) hid hdup2]
      refine ⟨by rw [hsecond]; rfl, by rw [hsecond]; rfl, ?_⟩
      exact step_eq_of_written_none _ request later (by rw [hsecond]; rfl)
    · rw [hid] at hid2
      cases hid2

theorem create_duplicate_name_witness :
    (((handleNodeGroupsRequest (postRequest (createBody "EU")) env0 none).response.status = 400 ∧
        (handleNodeGroupsRequest (postRequest (createBody "EU")) env0 none).written = none) ↔
      ∃ g ∈ readGroups none, jsTrim g.name = jsTrim "EU") ∧
    ((handleNodeGroupsRequest (postRequest (createBody "EU")) env0 none).response.success = true →
      ∀ later : Env,
        (handleNodeGroupsRequest (postRequest (createBody "EU")) later
          (step none (postRequest (createBody "EU"), env0))).response.status = 400 ∧
        (handleNodeGroupsRequest (postRequest (createBody "EU")) later
          (step none (postRequest (createBody "EU"), env0))).written = none ∧
        step (step none (postRequest (createBody "EU"), env0)) (postRequest (createBody "EU"), later)
          = step none (postRequest (createBody "EU"), env0)) :=
  create_duplicate_name (postRequest (createBody "EU")) env0 none (createBody "EU") "EU"
    (JsVal.str "n1") [JsVal.str "n2"] rfl rfl rfl rfl (by decide) rfl

/-! ## Update -/

/-- The index `findIndex` returns is the first position whose id equals the body's id. -/
theorem findIndex_of_first_match {groups : List Group} {v : JsVal} {i : Nat} {old : Group}
    (hold : groups[i]? = some old) (hmatch : v = JsVal.str old.id)
    (hfirst : ∀ j g, j < i → groups[j]? = some g → g.id ≠ old.id) :
    findIndex groups v = some i := by
  rw [findIndex_eq_some_iff]
  refine ⟨old, hold, strictEqStr_eq_true_iff.mpr hmatch, ?_⟩
  intro j g hj hg
  rw [Bool.eq_false_iff, Ne, strictEqStr_eq_true_iff, hmatch]
  intro heq
  injection heq with heq
  exact hfirst j g hj hg heq.symm

/-- A successful `POST` whose id is that of the record at position `i` (the first with that
id) wrote the collection with the record at `i` replaced by the updated record. -/
theorem update_written {request : Request} {env : Env} {store : Store} {body : JsVal}
    {i : Nat} {old : Group}
    (hmethod : request.method = "POST") (hjson : request.json = some body)
    (hold : (readGroups store)[i]? = some old) (hne : old.id ≠ "")
    (hmatch : body.getProp "id" = JsVal.str old.id)
    (hfirst : ∀ j g, j < i → (readGroups store)[j]? = some g → g.id ≠ old.id)
    (hsucc : (handleNodeGroupsRequest request env store).response.success = true) :
    ∃ s n ns desc, body.getProp "name" = JsVal.str s ∧ jsTrim s ≠ "" ∧
      body.getProp "nodeIds" = JsVal.arr (n :: ns) ∧
      descriptionOf (body.getProp "description") = some desc ∧
      duplicateNameExcept (readGroups store) i (jsTrim s) = false ∧
      handleNodeGroupsRequest request env store =
        writeAndReturn ((readGroups store).modify (fun g => updatedGroup g (jsTrim s) desc
          (n :: ns) (enabledOf (body.getProp "enabled")) env.nowIso) i) := by
  rw [handle_post_eq env store hmethod hjson] at hsucc ⊢
  obtain ⟨s, n, ns, hname, ht, hnodes⟩ := handlePost_success_inv (Or.inl hsucc)
  rw [handlePost_of_valid env (readGroups store) hname ht hnodes] at hsucc ⊢
  obtain ⟨desc, hdesc, hcase⟩ := upsert_success_inv (Or.inl hsucc)
  have hidx := findIndex_of_first_match hold hmatch hfirst
  have htruthy : (body.getProp "id").truthy = true := by
    simp [hmatch, JsVal.truthy, hne]
  rcases hcase with ⟨hfalse, -⟩ | ⟨-, k, hk, hdup⟩
  · rw [htruthy] at hfalse
    cases hfalse
  · rw [hidx] at hk
    cases hk
    exact ⟨s, n, ns, desc, hname, ht, hnodes, hdesc, hdup,
      upsert_update_eq env (readGroups store) (jsTrim s) (n :: ns) htruthy hidx hdup hdesc⟩

/-- C6, counterexample: in the store reached by `collidingCalls` the records at positions 0
and 1 share one id. A `POST` with that id matches the record at position 1 and succeeds,
but `findIndex` selects position 0: the record at position 1 is left unchanged (its name is
not the input name), and the record at position 0, a position other than 1, is the one
rewritten. -/
theorem update_second_match_counterexample :
    readGroups collidedStore = [groupEU, groupAsiaCollided] ∧
    (readGroups collidedStore)[1]? = some groupAsiaCollided ∧
    updateBody.getProp "id" = JsVal.str groupAsiaCollided.id ∧
    (handleNodeGroupsRequest (postRequest updateBody) env1 collidedStore).response.success
      = true ∧
    (handleNodeGroupsRequest (postRequest updateBody) env1 collidedStore).written
      = some [groupEUWest, groupAsiaCollided] ∧
    callTrim (updateBody.getProp "name") = some "EU-West" ∧
    groupAsiaCollided.name ≠ "EU-West" ∧
    groupEUWest.name ≠ groupEU.name :=
  ⟨rfl, rfl, rfl, by decide, rfl, by decide, by decide, by decide⟩

/-- C6, amended: for every stored collection `G` and every successful `POST` whose id is the
(non-empty) id of the record at position `i` of `G`, where `i` is the first position with
that id (the record `findIndex` selects, the only one when ids are distinct), the
written and returned collection has the length of `G`, every record at a position other
than `i` is unchanged, and the record at position `i` keeps its id and `createdAt`
(whatever the body carries) while its name is the trimmed input name, its description,
node ids and enabled flag come from the input, and its `updatedAt` is the current time. -/
theorem update_in_place (request : Request) (env : Env) (store : Store) (body : JsVal)
    (i : Nat) (old : Group)
    (hmethod : request.method = "POST") (hjson : request.json = some body)
    (hold : (readGroups store)[i]? = some old) (hne : old.id ≠ "")
    (hmatch : body.getProp "id" = JsVal.str old.id)
    (hfirst : ∀ j g, j < i → (readGroups store)[j]? = some g → g.id ≠ old.id)
    (hsucc : (handleNodeGroupsRequest request env store).response.success = true) :
    ∃ (written : List Group) (new : Group),
      (handleNodeGroupsRequest request env store).written = some written ∧
      (handleNodeGroupsRequest request env store).response.data = some written ∧
      written.length = (readGroups store).length ∧
      (∀ j, j ≠ i → written[j]? = (readGroups store)[j]?) ∧
      written[i]? = some new ∧
      new.id = old.id ∧
      new.createdAt = old.createdAt ∧
      callTrim (body.getProp "name") = some new.name ∧
      descriptionOf (body.getProp "description") = some new.description ∧
      body.getProp "nodeIds" = JsVal.arr new.nodeIds ∧
      new.enabled = enabledOf (body.getProp "enabled") ∧
      new.updatedAt = env.nowIso := by
  obtain ⟨s, n, ns, desc, hname, -, hnodes, hdesc, -, hout⟩ :=
    update_written hmethod hjson hold hne hmatch hfirst hsucc
  refine ⟨(readGroups store).modify (fun g => updatedGroup g (jsTrim s) desc (n :: ns)
    (enabledOf (body.getProp "enabled")) env.nowIso) i,
    updatedGroup old (jsTrim s) desc (n :: ns) (enabledOf (body.getProp "enabled"))
    env.nowIso, ?_⟩
  rw [hout]
  refine ⟨rfl, rfl, by simp, ?_, ?_, rfl, rfl, ?_, ?_, ?_, rfl, rfl⟩
  · intro j hj
    exact List.getElem?_modify_ne _ _ (Ne.symm hj)
  · simp [hold]
  · simp [hname, callTrim, updatedGroup]
  · simpa [updatedGroup] using hdesc
  · simpa [updatedGroup] using hnodes

theorem update_in_place_witness :
    ∃ (written : List Group) (new : Group),
      (handleNodeGroupsRequest (postRequest updateBody) env1 storeEU).written = some written ∧
      (handleNodeGroupsRequest (postRequest updateBody) env1 storeEU).response.data
        = some written ∧
      written.length = (readGroups storeEU).length ∧
      (∀ j, j ≠ 0 → written[j]? = (readGroups storeEU)[j]?) ∧
      written[0]? = some new ∧
      new.id = groupEU.id ∧
      new.createdAt = groupEU.createdAt ∧
      callTrim (updateBody.getProp "name") = some new.name ∧
      descriptionOf (updateBody.getProp "description") = some new.description ∧
      updateBody.getProp "nodeIds" = JsVal.arr new.nodeIds ∧
      new.enabled = enabledOf (updateBody.getProp "enabled") ∧
      new.updatedAt = env1.nowIso :=
  update_in_place (postRequest updateBody) env1 storeEU updateBody 0 groupEU rfl rfl rfl
    (by decide) rfl (fun j _ hj => absurd hj (Nat.not_lt_zero j)) (by decide)

/-- C7, counterexample: the group `EU` is created at the clock reading of `env0` and then
updated by a request that reads the same clock value (the same millisecond). The update
succeeds and the record keeps its id, but its `updatedAt` is not strictly greater than
before: it is the same text. -/
theorem update_same_instant_counterexample :
    ∃ old new : Group,
      run none [(postRequest (createBody "EU"), env0)] = some [old] ∧
      updateBody.getProp "id" = JsVal.str old.id ∧
      (handleNodeGroupsRequest (postRequest updateBody) env0 (some [old])).response.success
        = true ∧
      (handleNodeGroupsRequest (postRequest updateBody) env0 (some [old])).written
        = some [new] ∧
      new.id = old.id ∧
      new.updatedAt = old.updatedAt ∧
      ¬ (old.updatedAt < new.updatedAt) :=
  ⟨groupEU, { groupEUWest with updatedAt := "2024-05-01T10:00:00.000Z" }, rfl, rfl, by decide,
    rfl, rfl, rfl, lt_irrefl _⟩

/-- C7, amended: for every stored collection and every successful `POST` whose id is the
id of the record at position `i` (the first with that id), the `updatedAt` of that record
after the call is the current time of the call; it is strictly greater than the value
before the call exactly when the current time is strictly greater than the stored
`updatedAt` (timestamps compared as text). -/
theorem update_sets_updatedAt (request : Request) (env : Env) (store : Store) (body : JsVal)
    (i : Nat) (old : Group)
    (hmethod : request.method = "POST") (hjson : request.json = some body)
    (hold : (readGroups store)[i]? = some old) (hne : old.id ≠ "")
    (hmatch : body.getProp "id" = JsVal.str old.id)
    (hfirst : ∀ j g, j < i → (readGroups store)[j]? = some g → g.id ≠ old.id)
    (hsucc : (handleNodeGroupsRequest request env store).response.success = true) :
    ∃ (written : List Group) (new : Group),
      (handleNodeGroupsRequest request env store).written = some written ∧
      written[i]? = some new ∧
      new.id = old.id ∧
      new.updatedAt = env.nowIso ∧
      (old.updatedAt < new.updatedAt ↔ old.updatedAt < env.nowIso) := by
  obtain ⟨s, n, ns, desc, -, -, -, -, -, hout⟩ :=
    update_written hmethod hjson hold hne hmatch hfirst hsucc
  refine ⟨(readGroups store).modify (fun g => updatedGroup g (jsTrim s) desc (n :: ns)
    (enabledOf (body.getProp "enabled")) env.nowIso) i,
    updatedGroup old (jsTrim s) desc (n :: ns) (enabledOf (body.getProp "enabled"))
    env.nowIso, ?_⟩
  rw [hout]
  refine ⟨rfl, by simp [hold], rfl, rfl, Iff.rfl⟩

theorem update_sets_updatedAt_witness :
    ∃ (written : List Group) (new : Group),
      (handleNodeGroupsRequest (postRequest updateBody) env1 storeEU).written = some written ∧
      written[0]? = some new ∧
      new.id = groupEU.id ∧
      new.updatedAt = env1.nowIso ∧
      (groupEU.updatedAt < new.updatedAt ↔ groupEU.updatedAt < env1.nowIso) :=
  update_sets_updatedAt (postRequest updateBody) env1 storeEU updateBody 0 groupEU rfl rfl rfl
    (by decide) rfl (fun j _ hj => absurd hj (Nat.not_lt_zero j)) (by decide)

/-- C8, counterexample. First, in the store reached by `collidingCalls` the records at
positions 0 and 1 share one id; a `POST` with that id matches the record at position 1,
and the record at position 0, a different position, has the trimmed input name `EU`, yet
the request is not rejected: `findIndex` selects position 0, the check excludes that
position and the answer is status 200. Second, an update of the only record of `storeEU`
that keeps its name but carries `description: 5` does not succeed: the answer is 500. -/
theorem duplicate_check_counterexample :
    ((readGroups collidedStore)[1]? = some groupAsiaCollided ∧
      renameToSelfBody.getProp "id" = JsVal.str groupAsiaCollided.id ∧
      (readGroups collidedStore)[0]? = some groupEU ∧
      jsTrim groupEU.name = jsTrim " EU " ∧
      (handleNodeGroupsRequest (postRequest renameToSelfBody) env1 collidedStore).response.status
        = 200) ∧
    (readGroups storeEU = [groupEU] ∧
      keepNameNumericDescriptionBody.getProp "id" = JsVal.str groupEU.id ∧
      callTrim (keepNameNumericDescriptionBody.getProp "name") = some groupEU.name ∧
      (handleNodeGroupsRequest (postRequest keepNameNumericDescriptionBody) env1
        storeEU).response.status = 500 ∧
      (handleNodeGroupsRequest (postRequest keepNameNumericDescriptionBody) env1
        storeEU).response.success = false) :=
  ⟨⟨rfl, rfl, rfl, by decide, by decide⟩, ⟨rfl, rfl, by decide, by decide, by decide⟩⟩

/-- C8, amended: for every stored collection and every `POST` with a string name that is
not blank and a non-empty `nodeIds` array whose id is the (non-empty) id of the record at
position `i`, where `i` is the first position with that id (the record `findIndex`
selects), the request fails with status 400 without a write if and only if some record at
a position different from `i` has a trimmed name equal to the trimmed input name. In
particular an update that keeps the record's own current name succeeds whenever no record
at another position has that trimmed name (as in every collection with distinct trimmed
names) and the description is absent, `null` or a string. -/
theorem update_duplicate_name (request : Request) (env : Env) (store : Store) (body : JsVal)
    (i : Nat) (old : Group) (s : String) (n : JsVal) (ns : List JsVal)
    (hmethod : request.method = "POST") (hjson : request.json = some body)
    (hname : body.getProp "name" = JsVal.str s) (ht : jsTrim s ≠ "")
    (hnodes : body.getProp "nodeIds" = JsVal.arr (n :: ns))
    (hold : (readGroups store)[i]? = some old) (hne : old.id ≠ "")
    (hmatch : body.getProp "id" = JsVal.str old.id)
    (hfirst : ∀ j g, j < i → (readGroups store)[j]? = some g → g.id ≠ old.id) :
    (((handleNodeGroupsRequest request env store).response.status = 400 ∧
        (handleNodeGroupsRequest request env store).written = none) ↔
      ∃ j g, j ≠ i ∧ (readGroups store)[j]? = some g ∧ jsTrim g.name = jsTrim s) ∧
    (jsTrim s = jsTrim old.name →
      (∀ j g, j ≠ i → (readGroups store)[j]? = some g → jsTrim g.name ≠ jsTrim old.name) →
      (body.getProp "description" = JsVal.undefined ∨
        body.getProp "description" = JsVal.null ∨
        ∃ d, body.getProp "description" = JsVal.str d) →
      (handleNodeGroupsRequest request env store).response.status = 200 ∧
      (handleNodeGroupsRequest request env store).response.success = true) ∧
    (UniqueNames (readGroups store) →
      ∀ j g, j ≠ i → (readGroups store)[j]? = some g → jsTrim g.name ≠ jsTrim old.name) := by
  have hout : handleNodeGroupsRequest request env store
      = upsert env (readGroups store) body (jsTrim s) (n :: ns) := by
    rw [handle_post_eq env store hmethod hjson,
      handlePost_of_valid env (readGroups store) hname ht hnodes]
  have hidx := findIndex_of_first_match hold hmatch hfirst
  have htruthy : (body.getProp "id").truthy = true := by
    simp [hmatch, JsVal.truthy, hne]
  refine ⟨⟨?_, ?_⟩, ?_, ?_⟩
  · rintro ⟨hstatus, -⟩
    by_contra hno
    have hdup : duplicateNameExcept (readGroups store) i (jsTrim s) = false := by
      rw [Bool.eq_false_iff]
      intro hd
      exact hno (duplicateNameExcept_eq_true_iff.mp hd)
    rw [hout] at hstatus
    cases hdesc : descriptionOf (body.getProp "description") with
    | none =>
      simp [upsert, htruthy, hidx, hdup, hdesc, internalError, createJsonResponse] at hstatus
    | some desc =>
      simp [upsert, htruthy, hidx, hdup, hdesc, writeAndReturn, createJsonResponse] at hstatus
  · intro hex
    have hdup := duplicateNameExcept_eq_true_iff.mpr hex
    rw [hout]
    simp [upsert, htruthy, hidx, hdup, failure, createJsonResponse]
  · intro hself hothers hdescForm
    have hdup : duplicateNameExcept (readGroups store) i (jsTrim s) = false := by
      rw [Bool.eq_false_iff]
      intro hd
      obtain ⟨j, g, hji, hg, hgn⟩ := duplicateNameExcept_eq_true_iff.mp hd
      exact hothers j g hji hg (hgn.trans hself)
    have hdesc : ∃ desc, descriptionOf (body.getProp "description") = some desc := by
      rcases hdescForm with h | h | ⟨d, h⟩
      · exact ⟨"", by simp [h, descriptionOf]⟩
      · exact ⟨"", by simp [h, descriptionOf]⟩
      · exact ⟨jsTrim d, by simp [h, descriptionOf_str]⟩
    obtain ⟨desc, hdesc⟩ := hdesc
    rw [hout, upsert_update_eq env (readGroups store) (jsTrim s) (n :: ns) htruthy hidx hdup hdesc]
    exact ⟨rfl, rfl⟩
  · intro huniq j g hji hg
    exact (nodup_map_iff_getElem? _ _).mp huniq j i g old hji hg hold

theorem update_duplicate_name_witness :
    (((handleNodeGroupsRequest (postRequest renameToSelfBody) env1 storeEU).response.status = 400 ∧
        (handleNodeGroupsRequest (postRequest renameToSelfBody) env1 storeEU).written = none) ↔
      ∃ j g, j ≠ 0 ∧ (readGroups storeEU)[j]? = some g ∧ jsTrim g.name = jsTrim " EU ") ∧
    ((handleNodeGroupsRequest (postRequest renameToSelfBody) env1 storeEU).response.status = 200 ∧
      (handleNodeGroupsRequest (postRequest renameToSelfBody) env1 storeEU).response.success
        = true) :=
  have h := update_duplicate_name (postRequest renameToSelfBody) env1 storeEU renameToSelfBody 0
    groupEU " EU " (JsVal.str "n3") [] rfl rfl rfl (by decide) rfl rfl (by decide) rfl
    (fun j _ hj => absurd hj (Nat.not_lt_zero j))
  ⟨h.1, h.2.1 (by decide)
    (by
      intro j g hj hg
      cases j with
      | zero => exact absurd rfl hj
      | succ k =>
        rw [show readGroups storeEU = [groupEU] from rfl] at hg
        simp at hg)
    (Or.inl rfl)⟩

/-- C9: for every stored collection and every `POST` body with a string name that is not
blank and a non-empty `nodeIds` array whose id is present (truthy, so not the empty text)
and equals the id of no stored record, the handler answers with status 404 and
`success: false` and performs no write: the store is unchanged and no record is created. -/
theorem update_unknown_id (request : Request) (env : Env) (store : Store) (body : JsVal)
    (s : String) (n : JsVal) (ns : List JsVal)
    (hmethod : request.method = "POST") (hjson : request.json = some body)
    (hname : body.getProp "name" = JsVal.str s) (ht : jsTrim s ≠ "")
    (hnodes : body.getProp "nodeIds" = JsVal.arr (n :: ns))
    (hid : (body.getProp "id").truthy = true)
    (hunknown : ∀ g ∈ readGroups store, body.getProp "id" ≠ JsVal.str g.id) :
    (handleNodeGroupsRequest request env store).response.status = 404 ∧
    (handleNodeGroupsRequest request env store).response.success = false ∧
    (handleNodeGroupsRequest request env store).written = none ∧
    step store (request, env) = store := by
  have hidx : findIndex (readGroups store) (body.getProp "id") = none := by
    rw [findIndex_eq_none_iff]
    intro g hg
    rw [Bool.eq_false_iff, Ne, strictEqStr_eq_true_iff]
    exact hunknown g hg
  have hout : handleNodeGroupsRequest request env store = failure 404 := by
    rw [handle_post_eq env store hmethod hjson,
      handlePost_of_valid env (readGroups store) hname ht hnodes]
    simp [upsert, hid, hidx]
  refine ⟨by rw [hout]; rfl, by rw [hout]; rfl, by rw [hout]; rfl, ?_⟩
  exact step_eq_of_written_none store request env (by rw [hout]; rfl)

theorem update_unknown_id_witness :
    (handleNodeGroupsRequest (postRequest unknownIdBody) env1 storeEU).response.status = 404 ∧
    (handleNodeGroupsRequest (postRequest unknownIdBody) env1 storeEU).response.success
      = false ∧
    (handleNodeGroupsRequest (postRequest unknownIdBody) env1 storeEU).written = none ∧
    step storeEU (postRequest unknownIdBody, env1) = storeEU :=
  update_unknown_id (postRequest unknownIdBody) env1 storeEU unknownIdBody "Asia"
    (JsVal.str "n1") [] rfl rfl rfl (by decide) rfl rfl
    (by
      intro g hg
      have hstore : readGroups storeEU = [groupEU] := rfl
      rw [hstore, List.mem_singleton] at hg
      rw [hg]
      intro heq
      injection heq with heq
      exact absurd heq (by decide))

/-! ## Delete -/

/-- With distinct ids, removing the record at a position is filtering its id out. -/
theorem eraseIdx_eq_filter_of_uniqueIds {groups : List Group} {i : Nat} {removed : Group}
    (huniq : UniqueIds groups) (hrem : groups[i]? = some removed) :
    groups.eraseIdx i = groups.filter (fun g => decide (g.id ≠ removed.id)) := by
  induction groups generalizing i with
  | nil => simp at hrem
  | cons g rest ih =>
    have hcons : g.id ∉ rest.map (fun x => x.id) ∧ UniqueIds rest := by
      simpa [UniqueIds] using huniq
    cases i with
    | zero =>
      have hg : g = removed := by simpa using hrem
      subst hg
      have hrest : rest.filter (fun x => decide (x.id ≠ g.id)) = rest := by
        rw [List.filter_eq_self]
        intro x hx
        have hxne : x.id ≠ g.id := by
          intro heq
          exact hcons.1 (List.mem_map.mpr ⟨x, hx, heq⟩)
        simpa using hxne
      rw [List.filter_cons]
      simp only [ne_eq, not_true_eq_false, decide_False, Bool.false_eq_true, if_false]
      simpa using hrest.symm
    | succ k =>
      have hk : rest[k]? = some removed := by simpa using hrem
      have hmem : removed ∈ rest := List.mem_iff_getElem?.mpr ⟨k, hk⟩
      have hne : g.id ≠ removed.id := by
        intro heq
        exact hcons.1 (List.mem_map.mpr ⟨removed, hmem, heq.symm⟩)
      simp [List.filter_cons, hne, ih hcons.2 hk]

/-- C10: for every stored collection `G` and every id (not the empty text) carried by some
record of `G`, `DELETE` with that id succeeds with status 200, and the written and returned
collection is `G` with exactly one record removed, the first record whose id equals the
given id: the records before it keep their positions, the records after it move up by one
in their original order, the length decreases by exactly one; and when the ids of `G` are
distinct the result is `G` filtered to the records whose id differs from the given id. -/
theorem delete_exact (request : Request) (env : Env) (store : Store) (id : String)
    (hmethod : request.method = "DELETE") (hparam : request.idParam = some id)
    (hne : id ≠ "") (hmem : ∃ g ∈ readGroups store, g.id = id) :
    ∃ (i : Nat) (removed : Group),
      (readGroups store)[i]? = some removed ∧
      removed.id = id ∧
      (∀ j g, j < i → (readGroups store)[j]? = some g → g.id ≠ id) ∧
      (handleNodeGroupsRequest request env store).response.status = 200 ∧
      (handleNodeGroupsRequest request env store).response.success = true ∧
      (handleNodeGroupsRequest request env store).written
        = some ((readGroups store).eraseIdx i) ∧
      (handleNodeGroupsRequest request env store).response.data
        = some ((readGroups store).eraseIdx i) ∧
      ((readGroups store).eraseIdx i).length + 1 = (readGroups store).length ∧
      (∀ j, j < i → ((readGroups store).eraseIdx i)[j]? = (readGroups store)[j]?) ∧
      (∀ j, i ≤ j → ((readGroups store).eraseIdx i)[j]? = (readGroups store)[j + 1]?) ∧
      (UniqueIds (readGroups store) →
        (readGroups store).eraseIdx i
          = (readGroups store).filter (fun g => decide (g.id ≠ id))) := by
  cases hidx : findIndex (readGroups store) (JsVal.str id) with
  | none =>
    obtain ⟨g, hg, hgid⟩ := hmem
    have hfalse := findIndex_eq_none_iff.mp hidx g hg
    rw [Bool.eq_false_iff, Ne, strictEqStr_eq_true_iff, hgid] at hfalse
    exact absurd rfl hfalse
  | some i =>
    obtain ⟨removed, hrem, heq, hfirst⟩ := findIndex_eq_some_iff.mp hidx
    have hid : removed.id = id := by
      have h := strictEqStr_eq_true_iff.mp heq
      injection h with h
      exact h.symm
    have hout : handleNodeGroupsRequest request env store
        = writeAndReturn ((readGroups store).eraseIdx i) := by
      rw [handle_delete_eq env store hmethod]
      simp [handleDelete, hparam, hne, hidx]
    have hlt : i < (readGroups store).length := (List.getElem?_eq_some_iff.mp hrem).1
    refine ⟨i, removed, hrem, hid, ?_, by rw [hout]; rfl, by rw [hout]; rfl, by rw [hout]; rfl,
      by rw [hout]; rfl, ?_, ?_, ?_, ?_⟩
    · intro j g hj hg heqid
      have h := hfirst j g hj hg
      rw [Bool.eq_false_iff, Ne, strictEqStr_eq_true_iff, heqid] at h
      exact absurd rfl h
    · rw [List.length_eraseIdx_of_lt hlt]
      omega
    · intro j hj
      exact List.getElem?_eraseIdx_of_lt _ _ _ hj
    · intro j hj
      exact List.getElem?_eraseIdx_of_ge _ _ _ hj
    · intro huniq
      rw [← hid]
      exact eraseIdx_eq_filter_of_uniqueIds huniq hrem

theorem delete_exact_witness :
    ∃ (i : Nat) (removed : Group),
      (readGroups storeEU)[i]? = some removed ∧
      removed.id = groupEU.id ∧
      (∀ j g, j < i → (readGroups storeEU)[j]? = some g → g.id ≠ groupEU.id) ∧
      (handleNodeGroupsRequest (deleteRequest groupEU.id) env1 storeEU).response.status = 200 ∧
      (handleNodeGroupsRequest (deleteRequest groupEU.id) env1 storeEU).response.success
        = true ∧
      (handleNodeGroupsRequest (deleteRequest groupEU.id) env1 storeEU).written
        = some ((readGroups storeEU).eraseIdx i) ∧
      (handleNodeGroupsRequest (deleteRequest groupEU.id) env1 storeEU).response.data
        = some ((readGroups storeEU).eraseIdx i) ∧
      ((readGroups storeEU).eraseIdx i).length + 1 = (readGroups storeEU).length ∧
      (∀ j, j < i → ((readGroups storeEU).eraseIdx i)[j]? = (readGroups storeEU)[j]?) ∧
      (∀ j, i ≤ j → ((readGroups storeEU).eraseIdx i)[j]? = (readGroups storeEU)[j + 1]?) ∧
      (UniqueIds (readGroups storeEU) →
        (readGroups storeEU).eraseIdx i
          = (readGroups storeEU).filter (fun g => decide (g.id ≠ groupEU.id))) :=
  delete_exact (deleteRequest groupEU.id) env1 storeEU groupEU.id rfl rfl (by decide)
    ⟨groupEU, List.mem_singleton.mpr rfl, rfl⟩

/-! ## What a write looks like -/

/-- A `POST` that succeeds or writes is a create that appended one record or an update
that replaced one record. -/
theorem post_ok_inv {env : Env} {groups : List Group} {body : JsVal}
    (hok : (handlePost env groups body).response.success = true ∨
      (handlePost env groups body).written.isSome = true) :
    ∃ s n ns desc, body.getProp "name" = JsVal.str s ∧ jsTrim s ≠ "" ∧
      body.getProp "nodeIds" = JsVal.arr (n :: ns) ∧
      descriptionOf (body.getProp "description") = some desc ∧
      (((body.getProp "id").truthy = false ∧ duplicateName groups (jsTrim s) = false ∧
          handlePost env groups body = writeAndReturn (groups ++
            [createdGroup (generateId env) (jsTrim s) desc (n :: ns)
              (enabledOf (body.getProp "enabled")) env.nowIso])) ∨
       ((body.getProp "id").truthy = true ∧
          ∃ i, findIndex groups (body.getProp "id") = some i ∧
            duplicateNameExcept groups i (jsTrim s) = false ∧
            handlePost env groups body = writeAndReturn (groups.modify
              (fun g => updatedGroup g (jsTrim s) desc (n :: ns)
                (enabledOf (body.getProp "enabled")) env.nowIso) i))) := by
  obtain ⟨s, n, ns, hname, ht, hnodes⟩ := handlePost_success_inv hok
  rw [handlePost_of_valid env groups hname ht hnodes] at hok ⊢
  obtain ⟨desc, hdesc, hcase⟩ := upsert_success_inv hok
  refine ⟨s, n, ns, desc, hname, ht, hnodes, hdesc, ?_⟩
  rcases hcase with ⟨hid, hdup⟩ | ⟨hid, i, hidx, hdup⟩
  · exact Or.inl ⟨hid, hdup, upsert_create_eq env groups (jsTrim s) (n :: ns) hid hdup hdesc⟩
  · exact Or.inr ⟨hid, i, hidx, hdup,
      upsert_update_eq env groups (jsTrim s) (n :: ns) hid hidx hdup hdesc⟩

/-- A `DELETE` that succeeds or writes removed the record at the index found. -/
theorem delete_ok_inv {groups : List Group} {idParam : Option String}
    (hok : (handleDelete groups idParam).response.success = true ∨
      (handleDelete groups idParam).written.isSome = true) :
    ∃ id i, idParam = some id ∧ id ≠ "" ∧ findIndex groups (JsVal.str id) = some i ∧
      handleDelete groups idParam = writeAndReturn (groups.eraseIdx i) := by
  unfold handleDelete at hok ⊢
  cases idParam with
  | none => simp [failure, createJsonResponse] at hok
  | some id =>
    by_cases hid : id = ""
    · simp [hid, failure, createJsonResponse] at hok
    · cases hidx : findIndex groups (JsVal.str id) with
      | none => simp [hid, hidx, failure, createJsonResponse] at hok
      | some i => exact ⟨id, i, rfl, hid, hidx, by simp [hid, hidx]⟩

/-- Every outcome that writes is a success that returns what it wrote, and every success
of a `POST` or `DELETE` writes. -/
theorem written_of_success {request : Request} {env : Env} {store : Store}
    (hmethod : request.method = "POST" ∨ request.method = "DELETE")
    (hsucc : (handleNodeGroupsRequest request env store).response.success = true) :
    ∃ w, handleNodeGroupsRequest request env store = writeAndReturn w := by
  rcases hmethod with hm | hm
  · cases hjson : request.json with
    | none =>
      have hne : ¬ ("POST" = "GET") := by decide
      simp [handleNodeGroupsRequest, hm, hjson, hne, internalError, createJsonResponse] at hsucc
    | some body =>
      rw [handle_post_eq env store hm hjson] at hsucc ⊢
      obtain ⟨s, n, ns, desc, -, -, -, -, hcase⟩ := post_ok_inv (Or.inl hsucc)
      rcases hcase with ⟨-, -, h⟩ | ⟨-, i, -, -, h⟩
      · exact ⟨_, h⟩
      · exact ⟨_, h⟩
  · rw [handle_delete_eq env store hm] at hsucc ⊢
    obtain ⟨id, i, -, -, -, h⟩ := delete_ok_inv (Or.inl hsucc)
    exact ⟨_, h⟩

/-! ## Preservation of distinct names and distinct ids -/

theorem uniqueNames_append {groups : List Group} {record : Group} {t : String}
    (huniq : UniqueNames groups) (hdup : duplicateName groups t = false)
    (hname : jsTrim record.name = t) : UniqueNames (groups ++ [record]) := by
  unfold UniqueNames at huniq ⊢
  rw [List.map_append, List.nodup_append]
  refine ⟨huniq, by simp, ?_⟩
  intro x hx hx2
  rw [List.map_singleton, List.mem_singleton] at hx2
  obtain ⟨g, hg, hgx⟩ := List.mem_map.mp hx
  have htrue : duplicateName groups t = true :=
    duplicateName_eq_true_iff.mpr ⟨g, hg, by rw [hgx, hx2, hname]⟩
  rw [hdup] at htrue
  cases htrue

theorem uniqueNames_modify {groups : List Group} {i : Nat} {t : String} {f : Group → Group}
    (huniq : UniqueNames groups) (hdup : duplicateNameExcept groups i t = false)
    (hname : ∀ g, jsTrim (f g).name = t) : UniqueNames (groups.modify f i) := by
  unfold UniqueNames at huniq ⊢
  rw [nodup_map_iff_getElem?] at huniq ⊢
  have hother : ∀ j g, j ≠ i → groups[j]? = some g → jsTrim g.name ≠ t := by
    intro j g hj hg heq
    have htrue := duplicateNameExcept_eq_true_iff.mpr ⟨j, g, hj, hg, heq⟩
    rw [hdup] at htrue
    cases htrue
  intro j k a b hjk ha hb
  by_cases hj : j = i
  · have hk : k ≠ i := fun h => hjk (hj.trans h.symm)
    rw [List.getElem?_modify_ne _ _ (Ne.symm hk)] at hb
    subst hj
    rw [List.getElem?_modify_eq] at ha
    obtain ⟨a0, -, rfl⟩ := Option.map_eq_some'.mp ha
    rw [hname a0]
    exact (hother k b hk hb).symm
  · rw [List.getElem?_modify_ne _ _ (Ne.symm hj)] at ha
    by_cases hk : k = i
    · subst hk
      rw [List.getElem?_modify_eq] at hb
      obtain ⟨b0, -, rfl⟩ := Option.map_eq_some'.mp hb
      rw [hname b0]
      exact hother j a hj ha
    · rw [List.getElem?_modify_ne _ _ (Ne.symm hk)] at hb
      exact huniq j k a b hjk ha hb

theorem uniqueNames_eraseIdx {groups : List Group} (i : Nat) (huniq : UniqueNames groups) :
    UniqueNames (groups.eraseIdx i) :=
  List.Nodup.sublist ((List.eraseIdx_sublist groups i).map _) huniq

theorem uniqueIds_append {groups : List Group} {record : Group}
    (huniq : UniqueIds groups) (hfresh : record.id ∉ groups.map (fun g => g.id)) :
    UniqueIds (groups ++ [record]) := by
  unfold UniqueIds at huniq ⊢
  rw [List.map_append, List.nodup_append]
  refine ⟨huniq, by simp, ?_⟩
  intro x hx hx2
  rw [List.map_singleton, List.mem_singleton] at hx2
  exact hfresh (hx2 ▸ hx)

theorem map_id_modify {groups : List Group} (i : Nat) {f : Group → Group}
    (hid : ∀ g, (f g).id = g.id) :
    (groups.modify f i).map (fun g => g.id) = groups.map (fun g => g.id) := by
  apply List.ext_getElem?
  intro j
  by_cases hj : j = i
  · subst hj
    simp only [List.getElem?_map, List.getElem?_modify_eq]
    cases groups[j]? with
    | none => rfl
    | some g => simp [hid]
  · simp only [List.getElem?_map, List.getElem?_modify_ne _ _ (Ne.symm hj)]

theorem uniqueIds_eraseIdx {groups : List Group} (i : Nat) (huniq : UniqueIds groups) :
    UniqueIds (groups.eraseIdx i) :=
  List.Nodup.sublist ((List.eraseIdx_sublist groups i).map _) huniq

/-- Every write of the handler keeps the trimmed names distinct. -/
theorem written_uniqueNames {request : Request} {env : Env} {store : Store} {w : List Group}
    (huniq : UniqueNames (readGroups store))
    (hw : (handleNodeGroupsRequest request env store).written = some w) : UniqueNames w := by
  unfold handleNodeGroupsRequest at hw
  split at hw
  · cases hw
  · split at hw
    · cases hjson : request.json with
      | none => simp [hjson, internalError] at hw
      | some body =>
        simp only [hjson] at hw
        obtain ⟨s, n, ns, desc, -, -, -, -, hcase⟩ :=
          @post_ok_inv env (readGroups store) body (Or.inr (by rw [hw]; rfl))
        rcases hcase with ⟨-, hdup, h⟩ | ⟨-, i, -, hdup, h⟩
        · rw [h] at hw
          injection hw with hw
          rw [← hw]
          exact uniqueNames_append huniq hdup (by simp [createdGroup, jsTrim_idem])
        · rw [h] at hw
          injection hw with hw
          rw [← hw]
          exact uniqueNames_modify huniq hdup (by intro g; simp [updatedGroup, jsTrim_idem])
    · split at hw
      · obtain ⟨id, i, -, -, -, h⟩ :=
          @delete_ok_inv (readGroups store) request.idParam (Or.inr (by rw [hw]; rfl))
        rw [h] at hw
        injection hw with hw
        rw [← hw]
        exact uniqueNames_eraseIdx i huniq
      · cases hw

/-- One request keeps the trimmed names of the store distinct. -/
theorem step_uniqueNames (store : Store) (call : Request × Env)
    (huniq : UniqueNames (readGroups store)) : UniqueNames (readGroups (step store call)) := by
  unfold step applyWrite
  cases hw : (handleNodeGroupsRequest call.1 call.2 store).written with
  | none => simpa using huniq
  | some w => exact written_uniqueNames huniq hw

theorem run_uniqueNames (calls : List (Request × Env)) (store : Store)
    (huniq : UniqueNames (readGroups store)) : UniqueNames (readGroups (run store calls)) := by
  induction calls generalizing store with
  | nil => simpa [run] using huniq
  | cons call rest ih =>
    simpa [run] using ih (step store call) (step_uniqueNames store call huniq)

/-- Every write of the handler keeps the ids distinct, provided a created record gets an
id that is not stored yet. -/
theorem written_uniqueIds {request : Request} {env : Env} {store : Store} {w : List Group}
    (huniq : UniqueIds (readGroups store))
    (hfresh : isCreation request = true →
      generateId env ∉ (readGroups store).map (fun g => g.id))
    (hw : (handleNodeGroupsRequest request env store).written = some w) : UniqueIds w := by
  unfold handleNodeGroupsRequest at hw
  split at hw
  · cases hw
  · split at hw
    · rename_i hpost
      cases hjson : request.json with
      | none => simp [hjson, internalError] at hw
      | some body =>
        simp only [hjson] at hw
        obtain ⟨s, n, ns, desc, -, -, -, -, hcase⟩ :=
          @post_ok_inv env (readGroups store) body (Or.inr (by rw [hw]; rfl))
        rcases hcase with ⟨hid, -, h⟩ | ⟨-, i, -, -, h⟩
        · rw [h] at hw
          injection hw with hw
          rw [← hw]
          exact uniqueIds_append huniq (hfresh (by simp [isCreation, hpost, hjson, hid]))
        · rw [h] at hw
          injection hw with hw
          rw [← hw]
          unfold UniqueIds
          rw [map_id_modify i (by intro g; rfl)]
          exact huniq
    · split at hw
      · obtain ⟨id, i, -, -, -, h⟩ :=
          @delete_ok_inv (readGroups store) request.idParam (Or.inr (by rw [hw]; rfl))
        rw [h] at hw
        injection hw with hw
        rw [← hw]
        exact uniqueIds_eraseIdx i huniq
      · cases hw

/-- One request keeps the ids of the store distinct when a creation draws a fresh id. -/
theorem step_uniqueIds (store : Store) (call : Request × Env)
    (huniq : UniqueIds (readGroups store))
    (hfresh : isCreation call.1 = true →
      generateId call.2 ∉ (readGroups store).map (fun g => g.id)) :
    UniqueIds (readGroups (step store call)) := by
  unfold step applyWrite
  cases hw : (handleNodeGroupsRequest call.1 call.2 store).written with
  | none => simpa using huniq
  | some w => exact written_uniqueIds huniq hfresh hw

theorem run_uniqueIds (calls : List (Request × Env)) (store : Store)
    (huniq : UniqueIds (readGroups store)) (hfresh : FreshIds store calls) :
    UniqueIds (readGroups (run store calls)) := by
  induction calls generalizing store with
  | nil => simpa [run] using huniq
  | cons call rest ih =>
    simpa [run] using ih (step store call) (step_uniqueIds store call huniq hfresh.1) hfresh.2

/-! ## Stored ids are never empty -/

/-- A generated id starts with `group-`, so it is not the empty text. -/
theorem generateId_ne_empty (env : Env) : generateId env ≠ "" := by
  intro h
  have hlen := congrArg String.length h
  simp only [generateId, String.length_append] at hlen
  have h6 : "group-".length = 6 := by decide
  have h0 : "".length = 0 := by decide
  omega

/-- Every write of the handler keeps all ids non-empty. -/
theorem written_ids_nonempty {request : Request} {env : Env} {store : Store} {w : List Group}
    (hids : ∀ x ∈ (readGroups store).map (fun g => g.id), x ≠ "")
    (hw : (handleNodeGroupsRequest request env store).written = some w) :
    ∀ x ∈ w.map (fun g => g.id), x ≠ "" := by
  unfold handleNodeGroupsRequest at hw
  split at hw
  · cases hw
  · split at hw
    · cases hjson : request.json with
      | none => simp [hjson, internalError] at hw
      | some body =>
        simp only [hjson] at hw
        obtain ⟨s, n, ns, desc, -, -, -, -, hcase⟩ :=
          @post_ok_inv env (readGroups store) body (Or.inr (by rw [hw]; rfl))
        rcases hcase with ⟨-, -, h⟩ | ⟨-, i, -, -, h⟩
        · rw [h] at hw
          injection hw with hw
          rw [← hw]
          intro x hx
          rw [List.map_append, List.mem_append, List.map_singleton, List.mem_singleton] at hx
          rcases hx with hx | hx
          · exact hids x hx
          · rw [hx]
            exact generateId_ne_empty env
        · rw [h] at hw
          injection hw with hw
          rw [← hw, map_id_modify i (by intro g; rfl)]
          exact hids
    · split at hw
      · obtain ⟨id, i, -, -, -, h⟩ :=
          @delete_ok_inv (readGroups store) request.idParam (Or.inr (by rw [hw]; rfl))
        rw [h] at hw
        injection hw with hw
        rw [← hw]
        intro x hx
        exact hids x (((List.eraseIdx_sublist (readGroups store) i).map _).subset hx)
      · cases hw

/-- In every store reached from the empty one, every record has a non-empty id. -/
theorem run_ids_nonempty (calls : List (Request × Env)) (store : Store)
    (hids : ∀ x ∈ (readGroups store).map (fun g => g.id), x ≠ "") :
    ∀ x ∈ (readGroups (run store calls)).map (fun g => g.id), x ≠ "" := by
  induction calls generalizing store with
  | nil => simpa [run] using hids
  | cons call rest ih =>
    have hstep : ∀ x ∈ (readGroups (step store call)).map (fun g => g.id), x ≠ "" := by
      unfold step applyWrite
      cases hw : (handleNodeGroupsRequest call.1 call.2 store).written with
      | none => simpa using hids
      | some w => exact written_ids_nonempty hids hw
    simpa [run] using ih (step store call) hstep

/-! ## The two uniqueness invariants -/

/-- C1: name uniqueness (I2) is an invariant of the store. For every collection in which no
two records have equal trimmed names, every successful `POST` (create or update) and every
successful `DELETE` writes a collection in which no two records have equal trimmed names;
hence it holds for the collection reached from the empty store by any sequence of
requests. -/
theorem unique_names_invariant :
    (∀ (request : Request) (env : Env) (store : Store),
      UniqueNames (readGroups store) →
      (request.method = "POST" ∨ request.method = "DELETE") →
      (handleNodeGroupsRequest request env store).response.success = true →
      ∃ written, (handleNodeGroupsRequest request env store).written = some written ∧
        UniqueNames written) ∧
    (∀ calls : List (Request × Env), UniqueNames (readGroups (run none calls))) := by
  constructor
  · intro request env store huniq hmethod hsucc
    obtain ⟨w, hw⟩ := written_of_success hmethod hsucc
    have hwritten : (handleNodeGroupsRequest request env store).written = some w := by
      rw [hw]; rfl
    exact ⟨w, hwritten, written_uniqueNames huniq hwritten⟩
  · intro calls
    exact run_uniqueNames calls none (by simp [UniqueNames, readGroups])

theorem unique_names_invariant_witness :
    (∃ written, (handleNodeGroupsRequest (postRequest updateBody) env1 storeEU).written
        = some written ∧ UniqueNames written) ∧
    UniqueNames (readGroups (run none sampleCalls)) :=
  ⟨unique_names_invariant.1 (postRequest updateBody) env1 storeEU
      (by simp [UniqueNames, show readGroups storeEU = [groupEU] from rfl])
      (Or.inl rfl) (by decide),
    unique_names_invariant.2 sampleCalls⟩

/-- C2, counterexample: starting from the empty store, two groups with distinct names are
created by two requests for which `generateId` returns the same text (same millisecond,
same random suffix). Both creations succeed and the stored collection holds two records
with one id. -/
theorem id_collision_counterexample :
    generateId collidingCalls[0].2 = generateId collidingCalls[1].2 ∧
    (run none collidingCalls).map (fun groups => groups.map (fun g => (g.id, g.name)))
      = some [("group-1714557600000-k3j9x0a2b", "EU"), ("group-1714557600000-k3j9x0a2b", "Asia")] ∧
    ¬ UniqueIds (readGroups (run none collidingCalls)) :=
  ⟨rfl, rfl, by
    rw [show readGroups (run none collidingCalls)
      = [groupEU, { groupEU with name := "Asia" }] from rfl]
    simp [UniqueIds]⟩

/-- C2, amended: for every sequence of requests applied starting from the empty store in
which every creation draws a fresh id (the value `generateId` returns at that call equals
no id stored at that moment), no two records of the resulting stored collection share an
id. -/
theorem unique_ids_of_fresh (calls : List (Request × Env)) (hfresh : FreshIds none calls) :
    UniqueIds (readGroups (run none calls)) :=
  run_uniqueIds calls none (by simp [UniqueIds, readGroups]) hfresh

theorem unique_ids_of_fresh_witness :
    FreshIds none sampleCalls ∧ UniqueIds (readGroups (run none sampleCalls)) :=
  have hfresh : FreshIds none sampleCalls := by
    refine ⟨fun _ => by simp [readGroups], fun h => ?_, fun _ => ?_, trivial⟩
    · exact absurd h (by decide)
    · rw [show readGroups (step (step none (postRequest (createBody "EU"), env0))
          (postRequest updateBody, env1)) = [groupEUWest] from rfl]
      decide
  ⟨hfresh, unique_ids_of_fresh sampleCalls hfresh⟩

/-! ## Delete failures and list -/

/-- C11: for every stored collection, `DELETE` returns status 400 if and only if the `id`
query parameter is missing or empty, returns status 404 if and only if the id is non-empty
and equals the id of no record, and in both cases performs no write, so the stored
collection is unchanged. -/
theorem delete_failures (request : Request) (env : Env) (store : Store)
    (hmethod : request.method = "DELETE") :
    ((handleNodeGroupsRequest request env store).response.status = 400 ↔
      (request.idParam = none ∨ request.idParam = some "")) ∧
    ((handleNodeGroupsRequest request env store).response.status = 404 ↔
      ∃ id, request.idParam = some id ∧ id ≠ "" ∧ ∀ g ∈ readGroups store, g.id ≠ id) ∧
    (((handleNodeGroupsRequest request env store).response.status = 400 ∨
        (handleNodeGroupsRequest request env store).response.status = 404) →
      (handleNodeGroupsRequest request env store).written = none ∧
      step store (request, env) = store) := by
  have hout := handle_delete_eq env store hmethod
  have hfind : ∀ id : String, findIndex (readGroups store) (JsVal.str id) = none ↔
      ∀ g ∈ readGroups store, g.id ≠ id := by
    intro id
    rw [findIndex_eq_none_iff]
    constructor
    · intro h g hg heq
      have hfalse := h g hg
      rw [Bool.eq_false_iff, Ne, strictEqStr_eq_true_iff, heq] at hfalse
      exact hfalse rfl
    · intro h g hg
      rw [Bool.eq_false_iff, Ne, strictEqStr_eq_true_iff]
      intro heq
      injection heq with heq
      exact h g hg heq.symm
  cases hparam : request.idParam with
  | none =>
    have h400 : handleNodeGroupsRequest request env store = failure 400 := by
      rw [hout, hparam]; rfl
    refine ⟨?_, ?_, ?_⟩
    · rw [h400]; simp [failure, createJsonResponse]
    · rw [h400]; simp [failure, createJsonResponse]
    · intro _
      exact ⟨by rw [h400]; rfl, step_eq_of_written_none store request env (by rw [h400]; rfl)⟩
  | some id =>
    by_cases hid : id = ""
    · have h400 : handleNodeGroupsRequest request env store = failure 400 := by
        rw [hout, hparam]; simp [handleDelete, hid]
      refine ⟨?_, ?_, ?_⟩
      · rw [h400]; simp [failure, createJsonResponse, hid]
      · rw [h400]; simp [failure, createJsonResponse, hid]
      · intro _
        exact ⟨by rw [h400]; rfl, step_eq_of_written_none store request env (by rw [h400]; rfl)⟩
    · cases hidx : findIndex (readGroups store) (JsVal.str id) with
      | none =>
        have h404 : handleNodeGroupsRequest request env store = failure 404 := by
          rw [hout, hparam]; simp [handleDelete, hid, hidx]
        refine ⟨?_, ?_, ?_⟩
        · rw [h404]; simp [failure, createJsonResponse, hid]
        · rw [h404]
          simp only [failure, createJsonResponse, Option.getD_some, Option.some.injEq, true_iff]
          exact ⟨id, rfl, hid, (hfind id).mp hidx⟩
        · intro _
          exact ⟨by rw [h404]; rfl,
            step_eq_of_written_none store request env (by rw [h404]; rfl)⟩
      | some i =>
        have h200 : handleNodeGroupsRequest request env store
            = writeAndReturn ((readGroups store).eraseIdx i) := by
          rw [hout, hparam]; simp [handleDelete, hid, hidx]
        have hsome : ¬ ∀ g ∈ readGroups store, g.id ≠ id := by
          intro hall
          rw [(hfind id).mpr hall] at hidx
          cases hidx
        refine ⟨?_, ?_, ?_⟩
        · rw [h200]; simp [writeAndReturn, createJsonResponse, hid]
        · rw [h200]
          simp only [writeAndReturn, createJsonResponse, Option.getD_none, Option.some.injEq]
          constructor
          · intro h; cases h
          · rintro ⟨id2, hid2, -, hall⟩
            cases hid2
            exact absurd hall hsome
        · rw [h200]
          intro h
          simp [writeAndReturn, createJsonResponse] at h

theorem delete_failures_witness :
    ((handleNodeGroupsRequest (deleteRequest "group-0-missing") env1 storeEU).response.status
        = 400 ↔
      ((deleteRequest "group-0-missing").idParam = none ∨
        (deleteRequest "group-0-missing").idParam = some "")) ∧
    ((handleNodeGroupsRequest (deleteRequest "group-0-missing") env1 storeEU).response.status
        = 404 ↔
      ∃ id, (deleteRequest "group-0-missing").idParam = some id ∧ id ≠ "" ∧
        ∀ g ∈ readGroups storeEU, g.id ≠ id) ∧
    (((handleNodeGroupsRequest (deleteRequest "group-0-missing") env1 storeEU).response.status
          = 400 ∨
        (handleNodeGroupsRequest (deleteRequest "group-0-missing") env1 storeEU).response.status
          = 404) →
      (handleNodeGroupsRequest (deleteRequest "group-0-missing") env1 storeEU).written = none ∧
      step storeEU (deleteRequest "group-0-missing", env1) = storeEU) :=
  delete_failures (deleteRequest "group-0-missing") env1 storeEU rfl

/-- C12: for every store state, `GET` returns status 200 and `success: true` with `data`
equal to the stored collection, or the empty sequence when the key is absent, and performs
no write; a second `GET` on the store the first one leaves returns the identical
collection. -/
theorem list_read_only (request : Request) (env later : Env) (store : Store)
    (hmethod : request.method = "GET") :
    (handleNodeGroupsRequest request env store).response.status = 200 ∧
    (handleNodeGroupsRequest request env store).response.success = true ∧
    (handleNodeGroupsRequest request env store).response.data = some (readGroups store) ∧
    (store = none → (handleNodeGroupsRequest request env store).response.data = some []) ∧
    (∀ groups, store = some groups →
      (handleNodeGroupsRequest request env store).response.data = some groups) ∧
    (handleNodeGroupsRequest request env store).written = none ∧
    step store (request, env) = store ∧
    (handleNodeGroupsRequest request later (step store (request, env))).response.data
      = (handleNodeGroupsRequest request env store).response.data := by
  have hout : ∀ (e : Env) (st : Store), handleNodeGroupsRequest request e st
      = { response := createJsonResponse true (some (readGroups st)) none, written := none } := by
    intro e st
    simp [handleNodeGroupsRequest, hmethod]
  have hstep : step store (request, env) = store :=
    step_eq_of_written_none store request env (by rw [hout])
  refine ⟨by rw [hout]; rfl, by rw [hout]; rfl, by rw [hout]; rfl, ?_, ?_, by rw [hout], hstep, ?_⟩
  · intro hnone
    rw [hout, hnone]; rfl
  · intro groups hsome
    rw [hout, hsome]; rfl
  · rw [hstep, hout, hout]

theorem list_read_only_witness :
    (handleNodeGroupsRequest getRequest env0 storeEU).response.status = 200 ∧
    (handleNodeGroupsRequest getRequest env0 storeEU).response.success = true ∧
    (handleNodeGroupsRequest getRequest env0 storeEU).response.data
      = some (readGroups storeEU) ∧
    (storeEU = none → (handleNodeGroupsRequest getRequest env0 storeEU).response.data = some []) ∧
    (∀ groups, storeEU = some groups →
      (handleNodeGroupsRequest getRequest env0 storeEU).response.data = some groups) ∧
    (handleNodeGroupsRequest getRequest env0 storeEU).written = none ∧
    step storeEU (getRequest, env0) = storeEU ∧
    (handleNodeGroupsRequest getRequest env1 (step storeEU (getRequest, env0))).response.data
      = (handleNodeGroupsRequest getRequest env0 storeEU).response.data :=
  list_read_only getRequest env0 env1 storeEU rfl

/-! ## Shape of a written collection -/

theorem forall_mem_modify {α : Type} {P : α → Prop} {l : List α} {f : α → α} {i : Nat}
    (hall : ∀ a ∈ l, P a) (hf : ∀ a, l[i]? = some a → P (f a)) :
    ∀ a ∈ l.modify f i, P a := by
  intro a ha
  obtain ⟨k, hk⟩ := List.mem_iff_getElem?.mp ha
  by_cases hki : k = i
  · subst hki
    rw [List.getElem?_modify_eq] at hk
    obtain ⟨a0, ha0, rfl⟩ := Option.map_eq_some'.mp hk
    exact hf a0 ha0
  · rw [List.getElem?_modify_ne _ _ (Ne.symm hki)] at hk
    exact hall a (List.getElem?_mem hk)

/-- Every collection the handler writes is the stored one with a created record appended,
with the record at the found index updated, or with the record at the found index
removed. -/
theorem written_shape {request : Request} {env : Env} {store : Store} {w : List Group}
    (hw : (handleNodeGroupsRequest request env store).written = some w) :
    (∃ body s n ns desc, request.method = "POST" ∧ request.json = some body ∧
      body.getProp "name" = JsVal.str s ∧ jsTrim s ≠ "" ∧
      body.getProp "nodeIds" = JsVal.arr (n :: ns) ∧
      descriptionOf (body.getProp "description") = some desc ∧
      (((body.getProp "id").truthy = false ∧
          w = readGroups store ++ [createdGroup (generateId env) (jsTrim s) desc (n :: ns)
            (enabledOf (body.getProp "enabled")) env.nowIso]) ∨
       ((body.getProp "id").truthy = true ∧
          ∃ i, findIndex (readGroups store) (body.getProp "id") = some i ∧
            duplicateNameExcept (readGroups store) i (jsTrim s) = false ∧
            w = (readGroups store).modify (fun g => updatedGroup g (jsTrim s) desc (n :: ns)
              (enabledOf (body.getProp "enabled")) env.nowIso) i))) ∨
    (∃ i, request.method = "DELETE" ∧ w = (readGroups store).eraseIdx i) := by
  unfold handleNodeGroupsRequest at hw
  split at hw
  · cases hw
  · split at hw
    · rename_i hpost
      cases hjson : request.json with
      | none => simp [hjson, internalError] at hw
      | some body =>
        simp only [hjson] at hw
        obtain ⟨s, n, ns, desc, hname, ht, hnodes, hdesc, hcase⟩ :=
          @post_ok_inv env (readGroups store) body (Or.inr (by rw [hw]; rfl))
        refine Or.inl ⟨body, s, n, ns, desc, hpost, rfl, hname, ht, hnodes, hdesc, ?_⟩
        rcases hcase with ⟨hid, -, h⟩ | ⟨hid, i, hidx, hdup, h⟩
        · rw [h] at hw
          injection hw with hw
          exact Or.inl ⟨hid, hw.symm⟩
        · rw [h] at hw
          injection hw with hw
          exact Or.inr ⟨hid, i, hidx, hdup, hw.symm⟩
    · split at hw
      · rename_i hdelete
        obtain ⟨id, i, -, -, -, h⟩ :=
          @delete_ok_inv (readGroups store) request.idParam (Or.inr (by rw [hw]; rfl))
        rw [h] at hw
        injection hw with hw
        exact Or.inr ⟨i, hdelete, hw.symm⟩
      · cases hw

/-- A successful `POST` wrote one record, the created one at the end or the updated one at
the found index, whose name, node ids, enabled flag and `updatedAt` come from the call. -/
theorem post_written_record {request : Request} {env : Env} {store : Store} {body : JsVal}
    (hmethod : request.method = "POST") (hjson : request.json = some body)
    (hsucc : (handleNodeGroupsRequest request env store).response.success = true) :
    ∃ (w : List Group) (r : Group) (s : String),
      (handleNodeGroupsRequest request env store).written = some w ∧
      body.getProp "name" = JsVal.str s ∧ jsTrim s ≠ "" ∧
      r.name = jsTrim s ∧
      r.enabled = enabledOf (body.getProp "enabled") ∧
      r.updatedAt = env.nowIso ∧
      body.getProp "nodeIds" = JsVal.arr r.nodeIds ∧
      (((body.getProp "id").truthy = false ∧ w = readGroups store ++ [r]) ∨
       ((body.getProp "id").truthy = true ∧
          ∃ i, findIndex (readGroups store) (body.getProp "id") = some i ∧ w[i]? = some r)) := by
  obtain ⟨w, hw⟩ := written_of_success (Or.inl hmethod) hsucc
  have hwritten : (handleNodeGroupsRequest request env store).written = some w := by
    rw [hw]; rfl
  rcases written_shape hwritten with
    ⟨body2, s, n, ns, desc, -, hjson2, hname, ht, hnodes, -, hcase⟩ | ⟨i, hdelete, -⟩
  · rw [hjson] at hjson2
    injection hjson2 with hjson2
    subst hjson2
    rcases hcase with ⟨hid, hwr⟩ | ⟨hid, i, hidx, -, hwr⟩
    · exact ⟨w, _, s, hwritten, hname, ht, rfl, rfl, rfl, hnodes, Or.inl ⟨hid, hwr⟩⟩
    · obtain ⟨old, hold, -, -⟩ := findIndex_eq_some_iff.mp hidx
      refine ⟨w, updatedGroup old (jsTrim s) desc (n :: ns) (enabledOf (body.getProp "enabled"))
        env.nowIso, s, hwritten, hname, ht, rfl, rfl, rfl, hnodes, Or.inr ⟨hid, i, hidx, ?_⟩⟩
      rw [hwr, List.getElem?_modify_eq, hold]
      rfl
  · rw [hmethod] at hdelete
    exact absurd hdelete (by decide)

/-! ## Pointwise invariants: timestamps, membership, names -/

/-- C13, counterexample: the group `EU` is created at the clock reading
`2024-05-01T10:00:07.250Z`, so the stored collection satisfies I4. An update handled with a
clock that reads `2024-05-01T10:00:00.000Z` (a clock set back, or another machine) succeeds
and writes a record whose `updatedAt` is earlier than its `createdAt`. -/
theorem clock_set_back_counterexample :
    TimestampsOrdered (readGroups storeLate) ∧
    (handleNodeGroupsRequest (postRequest updateLateBody) env0 storeLate).response.success
      = true ∧
    (handleNodeGroupsRequest (postRequest updateLateBody) env0 storeLate).written
      = some [groupLateUpdated] ∧
    groupLateUpdated.updatedAt < groupLateUpdated.createdAt ∧
    ¬ TimestampsOrdered [groupLateUpdated] := by
  have hlt : groupLateUpdated.updatedAt < groupLateUpdated.createdAt := by
    rw [String.lt_iff_toList_lt]
    decide
  refine ⟨?_, by decide, rfl, hlt, ?_⟩
  · intro g hg
    rw [show readGroups storeLate = [groupLate] from rfl, List.mem_singleton] at hg
    rw [hg]
    exact le_refl _
  · intro hord
    exact absurd (hord groupLateUpdated (List.mem_singleton.mpr rfl)) (not_le.mpr hlt)

/-- C13, amended: for every collection in which every record satisfies
`updatedAt >= createdAt`, after every successful create or `DELETE`, and after every
successful update handled at a current time that is not earlier (as text) than the
`createdAt` of the record the body names, every record of the written collection satisfies
`updatedAt >= createdAt`. -/
theorem timestamps_ordered_of_clock (request : Request) (env : Env) (store : Store)
    (hord : TimestampsOrdered (readGroups store))
    (hmethod : request.method = "POST" ∨ request.method = "DELETE")
    (hsucc : (handleNodeGroupsRequest request env store).response.success = true)
    (hclock : ∀ body, request.method = "POST" → request.json = some body →
      ∀ g ∈ readGroups store, body.getProp "id" = JsVal.str g.id → g.createdAt ≤ env.nowIso) :
    ∃ written, (handleNodeGroupsRequest request env store).written = some written ∧
      TimestampsOrdered written := by
  obtain ⟨w, hw⟩ := written_of_success hmethod hsucc
  have hwritten : (handleNodeGroupsRequest request env store).written = some w := by
    rw [hw]; rfl
  refine ⟨w, hwritten, ?_⟩
  rcases written_shape hwritten with
    ⟨body, s, n, ns, desc, hpost, hjson, -, -, -, -, hcase⟩ | ⟨i, -, hwr⟩
  · rcases hcase with ⟨-, hwr⟩ | ⟨-, i, hidx, -, hwr⟩
    · rw [hwr]
      intro g hg
      rcases List.mem_append.mp hg with hg | hg
      · exact hord g hg
      · rw [List.mem_singleton.mp hg]
        exact le_refl _
    · rw [hwr]
      apply forall_mem_modify hord
      intro old hold
      obtain ⟨old2, hold2, heq, -⟩ := findIndex_eq_some_iff.mp hidx
      rw [hold] at hold2
      injection hold2 with hold2
      subst hold2
      exact hclock body hpost hjson old (List.getElem?_mem hold)
        (strictEqStr_eq_true_iff.mp heq)
  · rw [hwr]
    intro g hg
    exact hord g ((List.eraseIdx_sublist _ i).subset hg)

theorem timestamps_ordered_of_clock_witness :
    ∃ written, (handleNodeGroupsRequest (postRequest updateBody) env1 storeEU).written
        = some written ∧ TimestampsOrdered written :=
  timestamps_ordered_of_clock (postRequest updateBody) env1 storeEU
    (by
      intro g hg
      rw [show readGroups storeEU = [groupEU] from rfl, List.mem_singleton] at hg
      rw [hg]
      exact le_refl _)
    (Or.inl rfl) (by decide)
    (by
      intro body _ _ g hg _
      rw [show readGroups storeEU = [groupEU] from rfl, List.mem_singleton] at hg
      rw [hg]
      apply le_of_lt
      show groupEU.createdAt < env1.nowIso
      rw [String.lt_iff_toList_lt]
      decide)

/-- C14: non-empty membership (I3) is preserved. For every collection in which every record
has a non-empty `nodeIds` sequence, every successful `POST` (create or update) and every
successful `DELETE` writes a collection in which every record has a non-empty `nodeIds`
sequence. -/
theorem non_empty_membership_invariant (request : Request) (env : Env) (store : Store)
    (hinv : NonEmptyMembership (readGroups store))
    (hmethod : request.method = "POST" ∨ request.method = "DELETE")
    (hsucc : (handleNodeGroupsRequest request env store).response.success = true) :
    ∃ written, (handleNodeGroupsRequest request env store).written = some written ∧
      NonEmptyMembership written := by
  obtain ⟨w, hw⟩ := written_of_success hmethod hsucc
  have hwritten : (handleNodeGroupsRequest request env store).written = some w := by
    rw [hw]; rfl
  refine ⟨w, hwritten, ?_⟩
  rcases written_shape hwritten with
    ⟨body, s, n, ns, desc, -, -, -, -, -, -, hcase⟩ | ⟨i, -, hwr⟩
  · rcases hcase with ⟨-, hwr⟩ | ⟨-, i, -, -, hwr⟩
    · rw [hwr]
      intro g hg
      rcases List.mem_append.mp hg with hg | hg
      · exact hinv g hg
      · rw [List.mem_singleton.mp hg]
        exact List.cons_ne_nil n ns
    · rw [hwr]
      apply forall_mem_modify hinv
      intro old _
      exact List.cons_ne_nil n ns
  · rw [hwr]
    intro g hg
    exact hinv g ((List.eraseIdx_sublist _ i).subset hg)

theorem non_empty_membership_invariant_witness :
    ∃ written, (handleNodeGroupsRequest (postRequest updateBody) env1 storeEU).written
        = some written ∧ NonEmptyMembership written :=
  non_empty_membership_invariant (postRequest updateBody) env1 storeEU
    (by
      intro g hg
      rw [show readGroups storeEU = [groupEU] from rfl, List.mem_singleton] at hg
      rw [hg]
      exact List.cons_ne_nil _ _)
    (Or.inl rfl) (by decide)

theorem enabledOf_eq_false_iff (v : JsVal) : enabledOf v = false ↔ v = JsVal.bool false := by
  cases v with
  | bool b => cases b <;> simp [enabledOf]
  | _ => simp [enabledOf]

/-- C17: for every successful `POST`, the `enabled` field of the written record (the
appended record of a create, the record at the found index of an update) is `false` if and
only if the input's `enabled` is the boolean `false`; in particular, when the body has no
`enabled` field the written record is enabled, for a create and for an update alike,
whatever the stored record was. -/
theorem enabled_defaults_to_true (request : Request) (env : Env) (store : Store)
    (body : JsVal) (hmethod : request.method = "POST") (hjson : request.json = some body)
    (hsucc : (handleNodeGroupsRequest request env store).response.success = true) :
    ∃ (written : List Group) (record : Group),
      (handleNodeGroupsRequest request env store).written = some written ∧
      (((body.getProp "id").truthy = false ∧ written = readGroups store ++ [record]) ∨
       ((body.getProp "id").truthy = true ∧
          ∃ i, findIndex (readGroups store) (body.getProp "id") = some i ∧
            written[i]? = some record)) ∧
      (record.enabled = false ↔ body.getProp "enabled" = JsVal.bool false) ∧
      (body.getProp "enabled" = JsVal.undefined → record.enabled = true) := by
  obtain ⟨w, r, s, hw, -, -, -, henabled, -, -, hpos⟩ :=
    post_written_record hmethod hjson hsucc
  refine ⟨w, r, hw, hpos, ?_, ?_⟩
  · rw [henabled]
    exact enabledOf_eq_false_iff _
  · intro hundef
    rw [henabled, hundef]
    rfl

theorem enabled_defaults_to_true_witness :
    ∃ (written : List Group) (record : Group),
      (handleNodeGroupsRequest (postRequest omitEnabledBody) env1 storeDisabled).written
        = some written ∧
      (((omitEnabledBody.getProp "id").truthy = false ∧
          written = readGroups storeDisabled ++ [record]) ∨
       ((omitEnabledBody.getProp "id").truthy = true ∧
          ∃ i, findIndex (readGroups storeDisabled) (omitEnabledBody.getProp "id") = some i ∧
            written[i]? = some record)) ∧
      (record.enabled = false ↔ omitEnabledBody.getProp "enabled" = JsVal.bool false) ∧
      (omitEnabledBody.getProp "enabled" = JsVal.undefined → record.enabled = true) :=
  enabled_defaults_to_true (postRequest omitEnabledBody) env1 storeDisabled omitEnabledBody
    rfl rfl (by decide)

/-- C18: stored names are normalised. For every collection in which every record's name is
non-empty and equal to its own trim, every successful `POST` or `DELETE` writes a collection
with the same property; and the name written by a create or an update (the appended
record, the record at the found index) is exactly the trimmed input name and is
non-empty. -/
theorem names_normalised_invariant (request : Request) (env : Env) (store : Store)
    (hinv : NamesNormalised (readGroups store))
    (hmethod : request.method = "POST" ∨ request.method = "DELETE")
    (hsucc : (handleNodeGroupsRequest request env store).response.success = true) :
    (∃ written, (handleNodeGroupsRequest request env store).written = some written ∧
      NamesNormalised written) ∧
    (∀ body, request.method = "POST" → request.json = some body →
      ∃ (written : List Group) (record : Group) (s : String),
        (handleNodeGroupsRequest request env store).written = some written ∧
        (((body.getProp "id").truthy = false ∧ written = readGroups store ++ [record]) ∨
         ((body.getProp "id").truthy = true ∧
            ∃ i, findIndex (readGroups store) (body.getProp "id") = some i ∧
              written[i]? = some record)) ∧
        body.getProp "name" = JsVal.str s ∧
        record.name = jsTrim s ∧
        record.name ≠ "") := by
  constructor
  · obtain ⟨w, hw⟩ := written_of_success hmethod hsucc
    have hwritten : (handleNodeGroupsRequest request env store).written = some w := by
      rw [hw]; rfl
    refine ⟨w, hwritten, ?_⟩
    rcases written_shape hwritten with
      ⟨body, s, n, ns, desc, -, -, -, ht, -, -, hcase⟩ | ⟨i, -, hwr⟩
    · rcases hcase with ⟨-, hwr⟩ | ⟨-, i, -, -, hwr⟩
      · rw [hwr]
        intro g hg
        rcases List.mem_append.mp hg with hg | hg
        · exact hinv g hg
        · rw [List.mem_singleton.mp hg]
          exact ⟨ht, jsTrim_idem s⟩
      · rw [hwr]
        apply forall_mem_modify hinv
        intro old _
        exact ⟨ht, jsTrim_idem s⟩
    · rw [hwr]
      intro g hg
      exact hinv g ((List.eraseIdx_sublist _ i).subset hg)
  · intro body hpost hjson
    obtain ⟨w, r, s, hw, hname, ht, hrname, -, -, -, hpos⟩ :=
      post_written_record hpost hjson hsucc
    exact ⟨w, r, s, hw, hpos, hname, hrname, by rw [hrname]; exact ht⟩

theorem names_normalised_invariant_witness :
    (∃ written, (handleNodeGroupsRequest (postRequest omitEnabledBody) env1 storeDisabled).written
        = some written ∧ NamesNormalised written) ∧
    (∀ body, (postRequest omitEnabledBody).method = "POST" →
      (postRequest omitEnabledBody).json = some body →
      ∃ (written : List Group) (record : Group) (s : String),
        (handleNodeGroupsRequest (postRequest omitEnabledBody) env1 storeDisabled).written
          = some written ∧
        (((body.getProp "id").truthy = false ∧
            written = readGroups storeDisabled ++ [record]) ∨
         ((body.getProp "id").truthy = true ∧
            ∃ i, findIndex (readGroups storeDisabled) (body.getProp "id") = some i ∧
              written[i]? = some record)) ∧
        body.getProp "name" = JsVal.str s ∧
        record.name = jsTrim s ∧
        record.name ≠ "") :=
  names_normalised_invariant (postRequest omitEnabledBody) env1 storeDisabled
    (by
      intro g hg
      rw [show readGroups storeDisabled = [groupEUWest] from rfl, List.mem_singleton] at hg
      rw [hg]
      exact ⟨by decide, by decide⟩)
    (Or.inl rfl) (by decide)

/-! ## Id uniqueness in one step, and a repeated update -/

/-- A valid creation writes the collection with the created record appended, whatever
`generateId` returns. -/
theorem create_written (request : Request) (env : Env) (store : Store) {body : JsVal}
    {s desc : String} {n : JsVal} {ns : List JsVal}
    (hmethod : request.method = "POST") (hjson : request.json = some body)
    (hid : (body.getProp "id").truthy = false)
    (hname : body.getProp "name" = JsVal.str s) (ht : jsTrim s ≠ "")
    (hfresh : ∀ g ∈ readGroups store, jsTrim g.name ≠ jsTrim s)
    (hnodes : body.getProp "nodeIds" = JsVal.arr (n :: ns))
    (hdesc : descriptionOf (body.getProp "description") = some desc) :
    handleNodeGroupsRequest request env store =
      writeAndReturn (readGroups store ++ [createdGroup (generateId env) (jsTrim s) desc
        (n :: ns) (enabledOf (body.getProp "enabled")) env.nowIso]) := by
  have hdup : duplicateName (readGroups store) (jsTrim s) = false := by
    rw [Bool.eq_false_iff]
    intro hd
    obtain ⟨g, hg, hgn⟩ := duplicateName_eq_true_iff.mp hd
    exact hfresh g hg hgn
  rw [handle_post_eq env store hmethod hjson,
    handlePost_of_valid env (readGroups store) hname ht hnodes,
    upsert_create_eq env (readGroups store) (jsTrim s) (n :: ns) hid hdup hdesc]

/-- C16: for every stored collection with pairwise distinct ids, every successful `POST` or
`DELETE` writes a collection with pairwise distinct ids, provided that, on creation, the id
returned by `generateId` equals no id already in the collection. The handler performs no
collision check: a creation whose body is valid succeeds and appends a record with the
generated id whatever that id is, also when it is already stored. -/
theorem unique_ids_step :
    (∀ (request : Request) (env : Env) (store : Store),
      UniqueIds (readGroups store) →
      (request.method = "POST" ∨ request.method = "DELETE") →
      (handleNodeGroupsRequest request env store).response.success = true →
      (isCreation request = true →
        generateId env ∉ (readGroups store).map (fun g => g.id)) →
      ∃ written, (handleNodeGroupsRequest request env store).written = some written ∧
        UniqueIds written) ∧
    (∀ (request : Request) (env : Env) (store : Store) (body : JsVal) (s desc : String)
        (n : JsVal) (ns : List JsVal),
      request.method = "POST" → request.json = some body →
      (body.getProp "id").truthy = false →
      body.getProp "name" = JsVal.str s → jsTrim s ≠ "" →
      (∀ g ∈ readGroups store, jsTrim g.name ≠ jsTrim s) →
      body.getProp "nodeIds" = JsVal.arr (n :: ns) →
      descriptionOf (body.getProp "description") = some desc →
      (handleNodeGroupsRequest request env store).response.success = true ∧
      ∃ record, (handleNodeGroupsRequest request env store).written
          = some (readGroups store ++ [record]) ∧
        record.id = generateId env) := by
  constructor
  · intro request env store huniq hmethod hsucc hfresh
    obtain ⟨w, hw⟩ := written_of_success hmethod hsucc
    have hwritten : (handleNodeGroupsRequest request env store).written = some w := by
      rw [hw]; rfl
    exact ⟨w, hwritten, written_uniqueIds huniq hfresh hwritten⟩
  · intro request env store body s desc n ns hmethod hjson hid hname ht hfresh hnodes hdesc
    rw [create_written request env store hmethod hjson hid hname ht hfresh hnodes hdesc]
    exact ⟨rfl, _, rfl, rfl⟩

theorem unique_ids_step_witness :
    (∃ written, (handleNodeGroupsRequest (postRequest (createBody "Asia")) env1 storeEU).written
        = some written ∧ UniqueIds written) ∧
    ((handleNodeGroupsRequest (postRequest (createBody "Asia")) env0 storeEU).response.success
        = true ∧
      ∃ record, (handleNodeGroupsRequest (postRequest (createBody "Asia")) env0 storeEU).written
          = some (readGroups storeEU ++ [record]) ∧
        record.id = generateId env0) ∧
    generateId env0 ∈ (readGroups storeEU).map (fun g => g.id) :=
  have hnames : ∀ g ∈ readGroups storeEU, jsTrim g.name ≠ jsTrim "Asia" := by
    intro g hg
    rw [show readGroups storeEU = [groupEU] from rfl, List.mem_singleton] at hg
    rw [hg]
    decide
  ⟨unique_ids_step.1 (postRequest (createBody "Asia")) env1 storeEU
      (by rw [show readGroups storeEU = [groupEU] from rfl]; simp [UniqueIds])
      (Or.inl rfl) (by decide)
      (by
        intro _
        rw [show readGroups storeEU = [groupEU] from rfl]
        decide),
    unique_ids_step.2 (postRequest (createBody "Asia")) env0 storeEU (createBody "Asia") "Asia" ""
      (JsVal.str "n1") [JsVal.str "n2"] rfl rfl rfl rfl (by decide) hnames rfl rfl,
    by
      rw [show readGroups storeEU = [groupEU] from rfl]
      decide⟩

theorem findIndex_modify {groups : List Group} {v : JsVal} {i : Nat} {f : Group → Group}
    (hid : ∀ g, (f g).id = g.id) (hidx : findIndex groups v = some i) :
    findIndex (groups.modify f i) v = some i := by
  obtain ⟨g, hg, heq, hlt⟩ := findIndex_eq_some_iff.mp hidx
  rw [findIndex_eq_some_iff]
  refine ⟨f g, by rw [List.getElem?_modify_eq, hg]; rfl, by rw [hid]; exact heq, ?_⟩
  intro j g2 hj hg2
  rw [List.getElem?_modify_ne _ _ (Nat.ne_of_gt hj)] at hg2
  exact hlt j g2 hj hg2

theorem duplicateNameExcept_modify {groups : List Group} {i : Nat} {t : String}
    {f : Group → Group} (hdup : duplicateNameExcept groups i t = false) :
    duplicateNameExcept (groups.modify f i) i t = false := by
  rw [Bool.eq_false_iff] at hdup ⊢
  intro h
  obtain ⟨j, g, hji, hg, hgn⟩ := duplicateNameExcept_eq_true_iff.mp h
  rw [List.getElem?_modify_ne _ _ (Ne.symm hji)] at hg
  exact hdup (duplicateNameExcept_eq_true_iff.mpr ⟨j, g, hji, hg, hgn⟩)

/-- C20: update is idempotent. For every stored collection and every `POST` body with an
id that succeeds, applying the same update a second time to the resulting collection, with
the same current time, also succeeds and writes a collection identical to the one written
by the first application. -/
theorem update_idempotent (request : Request) (env later : Env) (store : Store)
    (body : JsVal) (hmethod : request.method = "POST") (hjson : request.json = some body)
    (hid : (body.getProp "id").truthy = true)
    (hsucc : (handleNodeGroupsRequest request env store).response.success = true)
    (htime : later.nowIso = env.nowIso) :
    ∃ written,
      (handleNodeGroupsRequest request env store).written = some written ∧
      (handleNodeGroupsRequest request later (step store (request, env))).response.success
        = true ∧
      (handleNodeGroupsRequest request later (step store (request, env))).written
        = some written := by
  rw [handle_post_eq env store hmethod hjson] at hsucc
  obtain ⟨s, n, ns, desc, hname, ht, hnodes, hdesc, hcase⟩ := post_ok_inv (Or.inl hsucc)
  rcases hcase with ⟨hfalse, -, -⟩ | ⟨-, i, hidx, hdup, hout⟩
  · rw [hid] at hfalse
    cases hfalse
  · have hfirst : handleNodeGroupsRequest request env store
        = writeAndReturn ((readGroups store).modify (fun g => updatedGroup g (jsTrim s) desc
            (n :: ns) (enabledOf (body.getProp "enabled")) env.nowIso) i) := by
      rw [handle_post_eq env store hmethod hjson, hout]
    have hstep : readGroups (step store (request, env))
        = (readGroups store).modify (fun g => updatedGroup g (jsTrim s) desc
            (n :: ns) (enabledOf (body.getProp "enabled")) env.nowIso) i := by
      simp [step, applyWrite, hfirst, writeAndReturn, readGroups]
    have hsecond : handleNodeGroupsRequest request later (step store (request, env))
        = writeAndReturn ((readGroups store).modify (fun g => updatedGroup g (jsTrim s) desc
            (n :: ns) (enabledOf (body.getProp "enabled")) env.nowIso) i) := by
      rw [handle_post_eq later _ hmethod hjson, handlePost_of_valid later _ hname ht hnodes,
        hstep,
        upsert_update_eq later _ (jsTrim s) (n :: ns) hid
          (findIndex_modify (by intro g; rfl) hidx) (duplicateNameExcept_modify hdup) hdesc,
        htime, List.modify_modify_eq]
      congr 1
    refine ⟨_, by rw [hfirst]; rfl, by rw [hsecond]; rfl, by rw [hsecond]; rfl⟩

theorem update_idempotent_witness :
    ∃ written,
      (handleNodeGroupsRequest (postRequest updateBody) env1 storeEU).written = some written ∧
      (handleNodeGroupsRequest (postRequest updateBody) env1
        (step storeEU (postRequest updateBody, env1))).response.success = true ∧
      (handleNodeGroupsRequest (postRequest updateBody) env1
        (step storeEU (postRequest updateBody, env1))).written = some written :=
  update_idempotent (postRequest updateBody) env1 env1 storeEU updateBody rfl rfl rfl
    (by decide) rfl

/-! ## The client store -/

/-- C15: for each of `fetchGroups`, `saveGroup` and `deleteGroup` and every server response,
if the response is HTTP-ok with `success` true, the local items become exactly the
response's `data` (the empty list when `data` is absent) and no error is raised; otherwise
the operation raises an error and the local items are exactly what they were before the
call. The same holds when `fetch` itself rejects. -/
theorem client_replace_or_keep (st : NodeGroupStore) (response : Response) :
    ((responseOk response = true ∧ response.success = true) →
      ((fetchGroups st (some response)).1.items = response.data.getD [] ∧
        (fetchGroups st (some response)).2 = none) ∧
      ((saveGroup st (some response)).1.items = response.data.getD [] ∧
        (saveGroup st (some response)).2 = none) ∧
      ((deleteGroup st (some response)).1.items = response.data.getD [] ∧
        (deleteGroup st (some response)).2 = none)) ∧
    (¬ (responseOk response = true ∧ response.success = true) →
      ((fetchGroups st (some response)).1.items = st.items ∧
        (fetchGroups st (some response)).2 ≠ none) ∧
      ((saveGroup st (some response)).1.items = st.items ∧
        (saveGroup st (some response)).2 ≠ none) ∧
      ((deleteGroup st (some response)).1.items = st.items ∧
        (deleteGroup st (some response)).2 ≠ none)) ∧
    (((fetchGroups st none).1.items = st.items ∧ (fetchGroups st none).2 ≠ none) ∧
      ((saveGroup st none).1.items = st.items ∧ (saveGroup st none).2 ≠ none) ∧
      ((deleteGroup st none).1.items = st.items ∧ (deleteGroup st none).2 ≠ none)) := by
  refine ⟨?_, ?_, ?_⟩
  · rintro ⟨hok, hsucc⟩
    simp [fetchGroups, saveGroup, deleteGroup, setItems, hok, hsucc]
  · intro hnot
    by_cases hok : responseOk response = true
    · have hsucc : response.success = false := by
        cases h : response.success with
        | false => rfl
        | true => exact absurd ⟨hok, h⟩ hnot
      simp [fetchGroups, saveGroup, deleteGroup, hok, hsucc]
    · simp [fetchGroups, saveGroup, deleteGroup, hok]
  · simp [fetchGroups, saveGroup, deleteGroup]

theorem client_replace_or_keep_witness :
    (fetchGroups staleClient
        (some (handleNodeGroupsRequest getRequest env0 storeEU).response)).1.items = [groupEU] ∧
    (saveGroup staleClient
        (some (handleNodeGroupsRequest (postRequest numericNameBody) env0 storeEU).response)).1.items
      = [groupEUWest] :=
  ⟨((client_replace_or_keep staleClient
      (handleNodeGroupsRequest getRequest env0 storeEU).response).1 ⟨by decide, by decide⟩).1.1,
    ((client_replace_or_keep staleClient
      (handleNodeGroupsRequest (postRequest numericNameBody) env0 storeEU).response).2.1
        (by decide)).2.1.1⟩

/-- C19: the client's local `remove` agrees with the server's `DELETE`. For every stored
collection (no record of which carries the empty id when the given id is empty) and every
id, the list the local `remove(id)` produces from that collection equals the collection
the server's `DELETE` with the same id leaves in the store: the returned `data` when the
id is present, the unchanged collection, with no write, when it is absent. -/
theorem remove_agrees_with_delete (request : Request) (env : Env) (store : Store)
    (loading : Bool) (id : String)
    (hmethod : request.method = "DELETE") (hparam : request.idParam = some id)
    (hids : id = "" → ∀ g ∈ readGroups store, g.id ≠ "") :
    (remove { items := readGroups store, isLoading := loading } (JsVal.str id)).items
      = readGroups (step store (request, env)) ∧
    ((∃ g ∈ readGroups store, g.id = id) →
      (handleNodeGroupsRequest request env store).response.data
        = some (remove { items := readGroups store, isLoading := loading } (JsVal.str id)).items) ∧
    ((∀ g ∈ readGroups store, g.id ≠ id) →
      (handleNodeGroupsRequest request env store).written = none ∧
      (remove { items := readGroups store, isLoading := loading } (JsVal.str id)).items
        = readGroups store) := by
  have hout := handle_delete_eq env store hmethod
  have hnone_iff : findIndex (readGroups store) (JsVal.str id) = none ↔
      ∀ g ∈ readGroups store, g.id ≠ id := by
    rw [findIndex_eq_none_iff]
    constructor
    · intro h g hg heq
      have hfalse := h g hg
      rw [Bool.eq_false_iff, Ne, strictEqStr_eq_true_iff, heq] at hfalse
      exact hfalse rfl
    · intro h g hg
      rw [Bool.eq_false_iff, Ne, strictEqStr_eq_true_iff]
      intro heq
      injection heq with heq
      exact h g hg heq.symm
  cases hidx : findIndex (readGroups store) (JsVal.str id) with
  | none =>
    have hfail : (handleNodeGroupsRequest request env store).written = none := by
      rw [hout, hparam]
      by_cases hid : id = ""
      · simp [handleDelete, hid, failure]
      · simp [handleDelete, hid, hidx, failure]
    have hrem : (remove { items := readGroups store, isLoading := loading } (JsVal.str id)).items
        = readGroups store := by
      simp [remove, hidx]
    refine ⟨?_, ?_, ?_⟩
    · rw [hrem, step_eq_of_written_none store request env hfail]
    · rintro ⟨g, hg, hgid⟩
      exact absurd hgid (hnone_iff.mp hidx g hg)
    · intro _
      exact ⟨hfail, hrem⟩
  | some i =>
    have hid : id ≠ "" := by
      intro hempty
      obtain ⟨g, hg, heq, -⟩ := findIndex_eq_some_iff.mp hidx
      have hgid := strictEqStr_eq_true_iff.mp heq
      injection hgid with hgid
      exact hids hempty g (List.getElem?_mem hg) (hgid ▸ hempty)
    have hdel : handleNodeGroupsRequest request env store
        = writeAndReturn ((readGroups store).eraseIdx i) := by
      rw [hout, hparam]
      simp [handleDelete, hid, hidx]
    have hrem : (remove { items := readGroups store, isLoading := loading } (JsVal.str id)).items
        = (readGroups store).eraseIdx i := by
      simp [remove, hidx]
    refine ⟨?_, ?_, ?_⟩
    · rw [hrem]
      simp [step, applyWrite, hdel, writeAndReturn, readGroups]
    · intro _
      rw [hrem, hdel]
      rfl
    · intro hall
      rw [hnone_iff.mpr hall] at hidx
      cases hidx

theorem remove_agrees_with_delete_witness :
    (remove { items := readGroups storeEU, isLoading := false } (JsVal.str groupEU.id)).items
      = readGroups (step storeEU (deleteRequest groupEU.id, env1)) ∧
    ((∃ g ∈ readGroups storeEU, g.id = groupEU.id) →
      (handleNodeGroupsRequest (deleteRequest groupEU.id) env1 storeEU).response.data
        = some (remove { items := readGroups storeEU, isLoading := false }
            (JsVal.str groupEU.id)).items) ∧
    ((∀ g ∈ readGroups storeEU, g.id ≠ groupEU.id) →
      (handleNodeGroupsRequest (deleteRequest groupEU.id) env1 storeEU).written = none ∧
      (remove { items := readGroups storeEU, isLoading := false } (JsVal.str groupEU.id)).items
        = readGroups storeEU) :=
  remove_agrees_with_delete (deleteRequest groupEU.id) env1 storeEU false groupEU.id rfl rfl
    (fun h => absurd h (by decide))

end MiSub
